import Mathlib

/-!
# Scoped Repository Toolkit — verification of the natural-language spec

Shallow embedding of the path-confinement, scope-store, scanner, grep and
text-surgery code of the repository (src/tools/tools.py, src/tools/fs_tools.py,
src/tools/fs_modules.py, src/services/search_path_service.py).

Modelling conventions:
* An absolute filesystem path is a `List String` of components (the parts after
  the root `/`).  `Path.resolve()` (symlinks aside) is `normAbs`, which drops
  empty and `"."` components and lets `".."` pop the previous component
  (popping at the root stays at the root, as POSIX resolution does).
* `p.relative_to(base)` succeeding is `base` being a component-prefix of `p`;
  the result is the remaining components (`relTo`).
* A filesystem is a finite list of (absolute path, content) pairs plus a list
  of directories; directories implied by files are also directories.
* Regular-expression search (`re.search` / `re.finditer`) is a parameter:
  an arbitrary `String → Bool` line predicate, resp. `String → List Span`.
-/

namespace Replica

/-! ## Path model -/

/-- One step of POSIX path resolution: `""` and `"."` are dropped, `".."`
removes the previous component (no-op at the root), anything else is kept.
Mirrors the effect of `Path.resolve()` on a symlink-free tree. -/
def normStep (acc : List String) (c : String) : List String :=
  if c = "" ∨ c = "." then acc
  else if c = ".." then acc.dropLast
  else acc ++ [c]

/-- Resolve an absolute component list (`Path(...).resolve()`). -/
def normAbs (comps : List String) : List String :=
  comps.foldl normStep []

/-- A path component is plain if it is none of `""`, `"."`, `".."`. -/
def plainComp (c : String) : Bool :=
  ¬ (c = "" ∨ c = "." ∨ c = "..")

/-- A fully resolved path: every component plain. -/
def NormalPath (p : List String) : Prop :=
  ∀ c ∈ p, plainComp c = true

instance (p : List String) : Decidable (NormalPath p) := by
  unfold NormalPath; infer_instance

/-- A user-supplied path: either absolute (components after `/`) or relative. -/
structure InputPath where
  absolute : Bool
  comps : List String
deriving Repr, DecidableEq

/-- `Path.expanduser()`: a relative path whose first component is `"~"`
becomes absolute at `home`; everything else is unchanged. -/
def expandUser (home : List String) (p : InputPath) : InputPath :=
  if p.absolute = false ∧ p.comps.head? = some "~" then
    ⟨true, home ++ p.comps.tail⟩
  else p

/-- `p = Path(x).expanduser(); if not p.is_absolute(): p = base / p; p = p.resolve()` —
the path-resolution prologue shared by every file operation in
src/tools/tools.py and src/tools/fs_tools.py. -/
def pyResolve (base home : List String) (inp : InputPath) : List String :=
  let q := expandUser home inp
  if q.absolute then normAbs q.comps else normAbs (base ++ q.comps)

/-- `p.relative_to(base)`: `some` of the remaining components if `base` is a
component-prefix of `p`, else `none` (Python raises `ValueError`). -/
def relTo (base p : List String) : Option (List String) :=
  if base.isPrefixOf p then some (p.drop base.length) else none

/-- The confinement guard used by every operation:
resolve the input against `base` and require the result to stay under `base`
(`try: p.relative_to(base) except: fail`).  Returns the resolved absolute
path on success. -/
def resolveUnder (base home : List String) (inp : InputPath) : Option (List String) :=
  let p := pyResolve base home inp
  match relTo base p with
  | some _ => some p
  | none => none

theorem relTo_eq_some {base p r : List String} (h : relTo base p = some r) :
    base <+: p ∧ p = base ++ r := by
  unfold relTo at h
  by_cases hp : base.isPrefixOf p
  · simp [hp] at h
    have hpre : base <+: p := List.isPrefixOf_iff_prefix.mp hp
    refine ⟨hpre, ?_⟩
    obtain ⟨t, ht⟩ := hpre
    subst ht
    simp at h
    simp [← h]
  · simp [hp] at h

/-- Whenever the shared guard accepts, the resolved path is the sandbox root
or a descendant of it. -/
theorem resolveUnder_under {base home : List String} {inp : InputPath}
    {p : List String} (h : resolveUnder base home inp = some p) :
    base <+: p ∧ p = pyResolve base home inp := by
  unfold resolveUnder at h
  cases hr : relTo base (pyResolve base home inp) with
  | none => simp [hr] at h
  | some r =>
    simp [hr] at h
    exact ⟨h ▸ (relTo_eq_some hr).1, h.symm⟩

/-! ## Filesystem model -/

/-- A snapshot of the real filesystem: files (absolute path, content) and
extra (possibly empty) directories.  Paths are resolved component lists. -/
structure FS where
  files : List (List String × String)
  dirs : List (List String)
deriving Repr

def FS.isFile (fs : FS) (p : List String) : Bool :=
  fs.files.any (fun e => e.1 = p)

def FS.content (fs : FS) (p : List String) : Option String :=
  (fs.files.find? (fun e => e.1 = p)).map (·.2)

/-- `p` is a directory: listed in `dirs`, or a strict ancestor of a file or
of a listed directory. -/
def FS.isDir (fs : FS) (p : List String) : Bool :=
  fs.dirs.any (fun d => p.isPrefixOf d) ||
  fs.files.any (fun e => p.isPrefixOf e.1 && ¬ (p = e.1))

def FS.pExists (fs : FS) (p : List String) : Bool :=
  fs.isFile p || fs.isDir p

/-- Overwrite/create a file (`open(p,"w")` after `p.parent.mkdir(parents=True)`). -/
def FS.writeFile (fs : FS) (p : List String) (content : String) : FS :=
  { files := (p, content) :: fs.files.filter (fun e => ¬ (e.1 = p)),
    dirs := p.dropLast :: fs.dirs }

/-- `p.mkdir(parents=True, exist_ok=True)`. -/
def FS.mkDirs (fs : FS) (p : List String) : FS :=
  { fs with dirs := p :: fs.dirs }

/-! ## Reading a file as lines (`f.readlines()` / `splitlines(keepends=True)`) -/

/-- Split a character stream into lines, each keeping its trailing newline. -/
def splitKeepAux : List Char → List Char → List (List Char)
  | [], acc => if acc.isEmpty then [] else [acc.reverse]
  | c :: cs, acc =>
      if c = '\n' then (acc.reverse ++ ['\n']) :: splitKeepAux cs []
      else splitKeepAux cs (c :: acc)

/-- `content.splitlines(keepends=True)` restricted to `\n` newlines
(text mode already translates `\r\n`). -/
def splitKeep (s : String) : List String :=
  (splitKeepAux s.data []).map (fun l => String.mk l)

/-- The lines of the file at `p` (empty list when the file is missing). -/
def FS.linesOf (fs : FS) (p : List String) : List String :=
  splitKeep ((fs.content p).getD "")

/-! ## Character-level string primitives

The Python string methods the source uses (`strip`, `replace("\\", "/")`,
`startswith`, `lower`, `split("/")`, lexicographic `<`) are modelled on the
character lists underlying `String`, so that they evaluate on concrete
inputs. -/

/-- `str.strip()` — remove leading and trailing whitespace. -/
def trimS (s : String) : String :=
  String.mk
    (((s.data.dropWhile Char.isWhitespace).reverse.dropWhile
        Char.isWhitespace).reverse)

/-- `str.replace("\\", "/")` (single-character pattern and replacement). -/
def replBack (s : String) : String :=
  String.mk (s.data.map (fun c => if c = '\\' then '/' else c))

/-- `str.startswith(pre)`. -/
def strStarts (s pre : String) : Bool :=
  pre.data.isPrefixOf s.data

/-- `str.lower()`. -/
def lowerS (s : String) : String :=
  String.mk (s.data.map Char.toLower)

def splitCharAux (sep : Char) : List Char → List Char → List (List Char)
  | [], acc => [acc.reverse]
  | c :: cs, acc =>
      if c = sep then acc.reverse :: splitCharAux sep cs []
      else splitCharAux sep cs (c :: acc)

/-- `str.split("/")` on a nonempty string. -/
def splitSlash (s : String) : List String :=
  (splitCharAux '/' s.data []).map String.mk

/-- Lexicographic comparison of character lists (Python string `<=`). -/
def charsLe : List Char → List Char → Bool
  | [], _ => true
  | _ :: _, [] => false
  | a :: as, b :: bs => if a = b then charsLe as bs else decide (a < b)

/-! ## Basic operations (src/tools/tools.py) -/

/-- `read_file(file_name, project_id)` (tools.py lines 181-215): resolve the
path against `doc_path`, refuse anything that escapes, else return the
content (`open` failing on a missing file). -/
def read_file (fs : FS) (base home : List String) (name : InputPath) :
    Except String String :=
  match resolveUnder base home name with
  | none => .error "path_must_be_under_doc_path"
  | some p =>
      match fs.content p with
      | some c => .ok c
      | none => .error "file_not_found"

/-- `write_file(file_path, content, project_id)` (tools.py lines 219-266):
returns `False` without touching the filesystem when the resolved path
escapes `doc_path`, else overwrites and returns `True`. -/
def write_file (fs : FS) (base home : List String) (fp : InputPath)
    (content : String) : Bool × FS :=
  match resolveUnder base home fp with
  | none => (false, fs)
  | some p => (true, fs.writeFile p content)

/-- `make_dirs(dir_path, project_id)` (tools.py lines 270-308). -/
def make_dirs (fs : FS) (base home : List String) (dp : InputPath) : Bool × FS :=
  match resolveUnder base home dp with
  | none => (false, fs)
  | some p => (true, fs.mkDirs p)

/-- Result document of `file_stat` (tools.py lines 474-537). -/
structure StatOut where
  fexists : Bool
  size : Option Nat
  lineCount : Option Nat
  rpath : Option (List String)
  error : Option String
deriving Repr, DecidableEq

/-- `file_stat(file_path, project_id)`: error field when the path escapes,
`exists=False` when missing, else size and line count. -/
def file_stat (fs : FS) (base home : List String) (fp : InputPath) : StatOut :=
  match resolveUnder base home fp with
  | none =>
      ⟨false, none, none, some (pyResolve base home fp),
        some "path_must_be_under_doc_path"⟩
  | some p =>
      match fs.content p with
      | some c => ⟨true, some c.length, some (splitKeep c).length, some p, none⟩
      | none => ⟨false, none, none, some p, none⟩

/-! ## read_file_range (tools.py lines 541-620, fs_tools.py lines 341-398) -/

/-- The line-collection loop: 1-based index `i` over the remaining lines,
skip while `i < s`, break at `i > e`, keep the rest. -/
def collectRange : List String → Int → Int → Int → List String
  | [], _, _, _ => []
  | l :: ls, i, s, e =>
      if i < s then collectRange ls (i + 1) s e
      else if i > e then []
      else l :: collectRange ls (i + 1) s e

/-- Result document of `read_file_range`. -/
structure RangeOut where
  fexists : Bool
  startLine : Option Int
  endLine : Option Int
  content : Option String
  rpath : Option (List String)
  error : Option String
deriving Repr, DecidableEq

/-- `read_file_range(file_path, start_line, end_line, project_id)`:
clamp `s = max(1, start_line)`, `e = max(s, end_line)`, collect the lines of
the inclusive clamped range. -/
def read_file_range (fs : FS) (base home : List String) (fp : InputPath)
    (startLine endLine : Int) : RangeOut :=
  match resolveUnder base home fp with
  | none =>
      ⟨false, none, none, none, some (pyResolve base home fp),
        some "path_must_be_under_doc_path"⟩
  | some p =>
      match fs.content p with
      | none => ⟨false, none, none, none, some p, none⟩
      | some c =>
          let s : Int := max 1 startLine
          let e : Int := max s endLine
          ⟨true, some s, some e,
            some (String.join (collectRange (splitKeep c) 1 s e)), some p, none⟩

/-! ## Anchor resolution (shared verbatim by insert_code and delete_code,
tools.py lines 783-812 and 929-956) -/

/-- `anchor in text` — literal substring containment. -/
def containsSub (needle hay : String) : Bool :=
  (List.range (hay.data.length + 1)).any
    (fun i => needle.data.isPrefixOf (hay.data.drop i))

/-- The two anchor modes of the source: literal substring (`anchor in text`)
or regex (`pattern.search(text)`, modelled by an arbitrary predicate). -/
inductive AnchorMode where
  | substr (anchor : String)
  | regex (search : String → Bool)

def lineHit : AnchorMode → String → Bool
  | .substr a, l => containsSub a l
  | .regex f, l => f l

/-- Collect the 1-based indices of all lines matching the anchor,
scanning top to bottom. -/
def collectAnchors (m : AnchorMode) (lines : List String) : List Nat :=
  ((List.enumFrom 1 lines).filter (fun ie => lineHit m ie.2)).map (·.1)

/-- `(occurrence or "first").lower()`. -/
def occNorm (occurrence : String) : String :=
  if occurrence = "" then "first" else lowerS occurrence

/-- Anchor-line selection: collect all matches, fail `anchor_not_found` when
none, then pick first/last/nth (1-based), failing `nth_out_of_range` when
`nth < 1 or nth > len(matches)`. -/
def resolveAnchor (m : AnchorMode) (occurrence : String) (nth : Int)
    (lines : List String) : Except String Nat :=
  let hits := collectAnchors m lines
  if hits = [] then .error "anchor_not_found"
  else
    let occ := occNorm occurrence
    if occ = "first" then .ok (hits.headD 0)
    else if occ = "last" then .ok (hits.getLastD 0)
    else if occ = "nth" then
      if nth < 1 ∨ nth > (hits.length : Int) then .error "nth_out_of_range"
      else .ok (hits.getD (nth - 1).toNat 0)
    else .error "invalid_occurrence"

/-! ## insert_code (tools.py lines 693-848) -/

/-- Addressing: explicit 1-based line (`line` argument, which wins) or anchor. -/
inductive InsertAddr where
  | byLine (n : Int)
  | byAnchor (m : AnchorMode) (occurrence : String) (nth : Int)

structure InsOut where
  insertAt : Int
  matchedLine : Int
deriving Repr, DecidableEq

/-- The line-splicing core of `insert_code`: compute the 0-based slice
position (`min(max(0, …), len(lines))`) and splice the payload lines in.
On error the file content is returned unchanged. -/
def insert_code_lines (lines codeLines : List String) (addr : InsertAddr)
    (wh : String) : Except String InsOut × List String :=
  match addr with
  | .byLine l =>
      let ln : Int := max 1 l
      if ¬ (wh = "before" ∨ wh = "after") then (.error "invalid_where", lines)
      else
        let idx : Nat :=
          if wh = "before" then min (ln - 1).toNat lines.length
          else min ln.toNat lines.length
        (.ok ⟨(idx : Int) + 1, ln⟩, lines.take idx ++ codeLines ++ lines.drop idx)
  | .byAnchor m occ nth =>
      match resolveAnchor m occ nth lines with
      | .error err => (.error err, lines)
      | .ok bl =>
          if ¬ (wh = "before" ∨ wh = "after") then (.error "invalid_where", lines)
          else
            let idx : Nat :=
              if wh = "before" then min (bl - 1) lines.length
              else min bl lines.length
            (.ok ⟨if wh = "before" then (bl : Int) else (bl : Int) + 1, (bl : Int)⟩,
              lines.take idx ++ codeLines ++ lines.drop idx)

/-- `insert_code` with the `doc_path` guard and the write-back
(payload already split into lines, trailing newline already ensured). -/
def insert_code (fs : FS) (base home : List String) (fp : InputPath)
    (codeLines : List String) (addr : InsertAddr) (wh : String) :
    Except String InsOut × FS :=
  match resolveUnder base home fp with
  | none => (.error "path_must_be_under_doc_path", fs)
  | some p =>
      match fs.content p with
      | none => (.error "file_not_found", fs)
      | some c =>
          match insert_code_lines (splitKeep c) codeLines addr wh with
          | (.error e, _) => (.error e, fs)
          | (.ok r, nl) => (.ok r, fs.writeFile p (String.join nl))

/-! ## delete_code (tools.py lines 852-1016) -/

/-- Normalize one Python slice bound against a list of length `len`. -/
def pyIdx (len : Nat) (i : Int) : Nat :=
  if i < 0 then (↑len + i).toNat else min i.toNat len

inductive DeleteAddr where
  | byRange (lineStart : Int) (lineEnd : Option Int)
  | byAnchor (m : AnchorMode) (occurrence : String) (nth : Int)
      (offset : Int) (length : Option Int)

structure DeleteOut where
  ok : Bool
  matchedLine : Option Int
  startLine : Option Int
  endLine : Option Int
  deleted : Nat
  marked : Bool
  markerStartLine : Option Int
  markerEndLine : Option Int
  error : Option String
deriving Repr, DecidableEq

/-- `re.match(r"\s*", line)` — the leading whitespace of a line. -/
def leadWS (s : String) : String :=
  String.mk (s.data.takeWhile Char.isWhitespace)

/-- The range-resolution and mutation core of `delete_code`:
resolve the inclusive 1-based range directly or via anchor + offset/length,
then delete it, or wrap it in sentinel markers when `mark_only`.
On error the file content is returned unchanged. -/
def delete_code_lines (lines : List String) (addr : DeleteAddr)
    (markOnly : Bool) (uid commentPre : String) : DeleteOut × List String :=
  let n := lines.length
  let ranged : Except String (Int × Int × Option Int) :=
    match addr with
    | .byRange ls le => .ok (max 1 ls, le.getD (max 1 ls), none)
    | .byAnchor m occ nth off len? =>
        match resolveAnchor m occ nth lines with
        | .error err => .error err
        | .ok bl =>
            let s : Int := (bl : Int) + off
            .ok (s, s + len?.getD 1 - 1, some (bl : Int))
  match ranged with
  | .error err =>
      (⟨false, none, none, none, 0, false, none, none, some err⟩, lines)
  | .ok (s0, e0, matched) =>
      if s0 > e0 then
        (⟨false, matched, none, none, 0, false, none, none, some "invalid_range"⟩,
          lines)
      else
        let s := max 1 s0
        let e := min (n : Int) e0
        let a := pyIdx n (s - 1)
        let b := pyIdx n e
        let block := (lines.drop a).take (b - a)
        if markOnly then
          let indent := (block.head?.map leadWS).getD ""
          let startM := indent ++ commentPre ++ " " ++ uid ++ "-D start\n"
          let endM := indent ++ commentPre ++ " " ++ uid ++ "-D end\n"
          (⟨true, matched, some s, some e, 0, true, some s,
              some (s + block.length + 1), none⟩,
            lines.take a ++ ([startM] ++ block ++ [endM]) ++ lines.drop (max a b))
        else
          let delCount : Int := e - (s - 1)
          if delCount ≤ 0 then
            (⟨false, matched, some s, some e, 0, false, none, none,
                some "empty_range"⟩, lines)
          else
            (⟨true, matched, some s, some e, delCount.toNat, false, none, none,
                none⟩,
              lines.take a ++ lines.drop (max a b))

/-! ## Sorting (Python's stable `sorted`) -/

def insertSorted (le : α → α → Bool) (x : α) : List α → List α
  | [] => [x]
  | y :: ys => if le x y then x :: y :: ys else y :: insertSorted le x ys

/-- Stable insertion sort, the model of Python's `sorted`. -/
def sortBy (le : α → α → Bool) (l : List α) : List α :=
  l.foldr (insertSorted le) []

theorem mem_insertSorted {le : α → α → Bool} {x a : α} {l : List α} :
    a ∈ insertSorted le x l ↔ a = x ∨ a ∈ l := by
  induction l with
  | nil => simp [insertSorted]
  | cons y ys ih =>
      unfold insertSorted
      by_cases h : le x y = true
      · simp [h]
      · simp [h, ih]
        tauto

theorem mem_sortBy {le : α → α → Bool} {a : α} {l : List α} :
    a ∈ sortBy le l ↔ a ∈ l := by
  induction l with
  | nil => simp [sortBy]
  | cons y ys ih =>
      simp only [sortBy, List.foldr_cons] at *
      rw [mem_insertSorted, ih]
      simp

/-- `delete_code` with the `doc_path` guard and the write-back. -/
def delete_code (fs : FS) (base home : List String) (fp : InputPath)
    (addr : DeleteAddr) (markOnly : Bool) (uid commentPre : String) :
    DeleteOut × FS :=
  match resolveUnder base home fp with
  | none =>
      (⟨false, none, none, none, 0, false, none, none,
          some "path_must_be_under_doc_path"⟩, fs)
  | some p =>
      match fs.content p with
      | none =>
          (⟨false, none, none, none, 0, false, none, none,
              some "file_not_found"⟩, fs)
      | some c =>
          let r := delete_code_lines (splitKeep c) addr markOnly uid commentPre
          if r.1.error.isSome then (r.1, fs)
          else (r.1, fs.writeFile p (String.join r.2))

/-! ## The unified scanner (src/tools/fs_modules.py, `scan_tree`) -/

/-- `EXCLUDED_NAMES_DEFAULT` of fs_modules.py. -/
def defaultExcluded : List String :=
  [".git", "vendor", ".github", "logs", "node_modules", ".venv", "__pycache__",
    ".idea"]

/-- Join components back into a POSIX relative string (`as_posix()`). -/
def joinP (comps : List String) : String :=
  String.intercalate "/" comps

/-- `str(s).replace("\\", "/").strip("/")` (per-entry normalization inside
the scanner loops). -/
def stripSlashes (s : String) : String :=
  String.mk (((s.data.dropWhile (· = '/')).reverse.dropWhile (· = '/')).reverse)

def normEntry (s : String) : String :=
  stripSlashes (replBack s)

/-- Split a nonempty normalized relative string into components. -/
def compsOf (s : String) : List String :=
  if s = "" then [] else splitSlash s

/-- `Path.suffix.lower()`: the last `.`-suffix of the final component;
empty when there is no dot, the dot is the first character, or the dot is
the last character. -/
def extOf (p : List String) : String :=
  match p.getLast? with
  | none => ""
  | some name =>
      let cs := name.data
      let tail := cs.reverse.takeWhile (· ≠ '.')
      if tail.length = cs.length then ""
      else if tail.length = 0 then ""
      else if cs.length - tail.length - 1 = 0 then ""
      else lowerS (String.mk ('.' :: tail.reverse))

/-- The request-shaping arguments of `scan_tree` (fnmatch patterns are
modelled as opaque predicates on the joined relative path). -/
structure ScanCfg where
  requireSearchPaths : Bool
  pattern : Option (String → Bool)
  patternIsAll : Bool
  patternOnIncludes : Bool
  incPattern : String → Bool
  ignoreExcludes : Bool
  allowAncestor : Bool
  maxItems : Nat
  allowExts : List String
  denyExts : List String
  extraExcluded : List String

/-- The names pruned during directory walks. -/
def ScanCfg.excludedNames (cfg : ScanCfg) : List String :=
  defaultExcluded ++ cfg.extraExcluded

/-- `includes_pattern_match` applied when `pattern_on_includes` is set
(`"**/*"` always passes). -/
def ScanCfg.incEntryOk (cfg : ScanCfg) (rel : String) : Bool :=
  match cfg.pattern with
  | none => true
  | some _ =>
      if cfg.patternOnIncludes then
        cfg.patternIsAll || cfg.incPattern rel
      else true

/-- The `pattern` filter on a base-relative path: present, not targeted at
includes, not the all-pass `"**/*"`, and failing `fnmatch`. -/
def ScanCfg.patRejects (cfg : ScanCfg) (relStr : String) : Bool :=
  match cfg.pattern with
  | some f =>
      !cfg.patternOnIncludes && !cfg.patternIsAll && !(f relStr)
  | none => false

/-- `add_file` (fs_modules.py lines 249-276): scope-relative resolution,
explicit-include-wins exclude rule, extension filters, pattern filter,
dedup, append. -/
def addFile (doc root : List String) (includes excludesEff : List String)
    (cfg : ScanCfg) (st : List (List String)) (absF : List String) :
    List (List String) :=
  match relTo doc absF with
  | none => st
  | some relDoc =>
      let relDocStr := joinP relDoc
      let explicit := includes.contains relDocStr
      if excludesEff ≠ [] ∧ explicit = false ∧
          excludesEff.any
            (fun ex => relDocStr = ex || strStarts relDocStr (ex ++ "/")) then st
      else
        match relTo root absF with
        | none => st
        | some relRoot =>
            let ext := extOf absF
            if cfg.denyExts ≠ [] ∧ cfg.denyExts.contains ext then st
            else if cfg.allowExts ≠ [] ∧ cfg.allowExts.contains ext = false then st
            else if cfg.patRejects (joinP relRoot) then st
            else if st.contains relRoot then st else st ++ [relRoot]

/-- A file reached by `os.walk(abs_t)` with the default-name pruning:
strictly below `absT`, and no intermediate directory component is an
excluded name. -/
def walkHit (absT : List String) (excluded : List String)
    (p : List String) : Bool :=
  absT.isPrefixOf p && decide (p ≠ absT) &&
    ((p.drop absT.length).dropLast.all (fun d => (excluded.contains d) = false))

/-- The recursive enumeration of a whitelisted directory
(files-mode ancestor expansion), with the `max_items` early return. -/
def walkAdd (doc root : List String) (includes excludesEff : List String)
    (cfg : ScanCfg) (absT : List String) :
    List (List String × String) → List (List String) → List (List String) × Bool
  | [], st => (st, false)
  | f :: rest, st =>
      if walkHit absT cfg.excludedNames f.1 then
        let st' := addFile doc root includes excludesEff cfg st f.1
        if cfg.maxItems ≠ 0 ∧ st'.length ≥ cfg.maxItems then (st', true)
        else walkAdd doc root includes excludesEff cfg absT rest st'
      else walkAdd doc root includes excludesEff cfg absT rest st

/-- The files-mode include loop (fs_modules.py lines 278-304). -/
def scanFilesGo (fs : FS) (doc root : List String)
    (includes excludesEff : List String) (cfg : ScanCfg) :
    List String → List (List String) → List (List String) × Bool
  | [], st => (st, false)
  | entry :: rest, st =>
      let rel := normEntry entry
      if rel = "" then scanFilesGo fs doc root includes excludesEff cfg rest st
      else if cfg.incEntryOk rel = false then
        scanFilesGo fs doc root includes excludesEff cfg rest st
      else
        let absT := normAbs (doc ++ compsOf rel)
        if fs.isFile absT then
          let st' := addFile doc root includes excludesEff cfg st absT
          if cfg.maxItems ≠ 0 ∧ st'.length ≥ cfg.maxItems then (st', true)
          else scanFilesGo fs doc root includes excludesEff cfg rest st'
        else if fs.isDir absT ∧ cfg.allowAncestor then
          match walkAdd doc root includes excludesEff cfg absT fs.files st with
          | (st', true) => (st', true)
          | (st', false) => scanFilesGo fs doc root includes excludesEff cfg rest st'
        else scanFilesGo fs doc root includes excludesEff cfg rest st

/-- Ordering used for the final `sorted(...)`: Python sorts the joined
POSIX strings. -/
def pathLe (a b : List String) : Bool :=
  charsLe (joinP a).data (joinP b).data

/-- The raw `base_path` resolution of `scan_tree` (fs_modules.py lines
203-213): `""`, `"."` and `"repo"` alias `doc_path`; everything else
resolves against `doc_path`. -/
def scanRootRaw (doc home : List String) (bp : InputPath) : List String :=
  let q := expandUser home bp
  if q.absolute then normAbs q.comps
  else if q.comps = [] ∨ q.comps = ["."] ∨ q.comps = ["repo"] then doc
  else normAbs (doc ++ q.comps)

/-- The `base_path` guard of `scan_tree` (fs_modules.py lines 214-218):
the resolved request root must stay under `doc_path`. -/
def resolveScanRoot (doc home : List String) (bp : InputPath) :
    Option (List String) :=
  match relTo doc (scanRootRaw doc home bp) with
  | some _ => some (scanRootRaw doc home bp)
  | none => none

/-- `scan_tree(mode="files", ...)`: full pipeline, `Except` for the
`ValueError` raised when `base_path` leaves `doc_path`. -/
def scan_tree_files (fs : FS) (doc home : List String) (bp : InputPath)
    (includes excludes : List String) (cfg : ScanCfg) :
    Except String (List (List String)) :=
  match resolveScanRoot doc home bp with
  | none => .error "base_path_must_be_under_doc_path"
  | some root =>
      if fs.isDir root = false then .ok []
      else
        let excludesEff := if cfg.ignoreExcludes then [] else excludes
        if cfg.requireSearchPaths ∧ includes = [] then .ok []
        else
          let r := scanFilesGo fs doc root includes excludesEff cfg includes []
          .ok (sortBy pathLe r.1)

/-- `add_parent_of` (fs_modules.py lines 309-323). -/
def addParent (root : List String) (cfg : ScanCfg)
    (st : List (List String)) (p : List String) : List (List String) :=
  let parent := p.dropLast
  match relTo root parent with
  | none => st
  | some relParent =>
      if relParent.any (fun part => cfg.excludedNames.contains part) then st
      else if cfg.patRejects (joinP relParent) then st
      else if st.contains relParent then st else st ++ [relParent]

/-- Dirs-mode walk below a whitelisted directory: every reached file
contributes its parent.  (The source's per-directory `max_items` break only
skips files of one directory; the final cap below is what bounds the
result, so the break is not modelled.) -/
def walkParents (root : List String) (cfg : ScanCfg) (absT : List String) :
    List (List String × String) → List (List String) → List (List String)
  | [], st => st
  | f :: rest, st =>
      if walkHit absT cfg.excludedNames f.1 then
        walkParents root cfg absT rest (addParent root cfg st f.1)
      else walkParents root cfg absT rest st

/-- The dirs-mode include loop (fs_modules.py lines 306-350). -/
def scanDirsGo (fs : FS) (doc root : List String) (cfg : ScanCfg) :
    List String → List (List String) → List (List String)
  | [], st => st
  | entry :: rest, st =>
      let rel := normEntry entry
      if rel = "" then scanDirsGo fs doc root cfg rest st
      else if cfg.incEntryOk rel = false then scanDirsGo fs doc root cfg rest st
      else
        let absT := normAbs (doc ++ compsOf rel)
        if fs.isFile absT then
          scanDirsGo fs doc root cfg rest (addParent root cfg st absT)
        else if fs.isDir absT ∧ cfg.allowAncestor then
          scanDirsGo fs doc root cfg rest (walkParents root cfg absT fs.files st)
        else scanDirsGo fs doc root cfg rest st

/-- `scan_tree(mode="dirs", ...)`. -/
def scan_tree_dirs (fs : FS) (doc home : List String) (bp : InputPath)
    (includes _excludes : List String) (cfg : ScanCfg) :
    Except String (List (List String)) :=
  match resolveScanRoot doc home bp with
  | none => .error "base_path_must_be_under_doc_path"
  | some root =>
      if fs.isDir root = false then .ok []
      else if cfg.requireSearchPaths ∧ includes = [] then .ok []
      else
        let parents := scanDirsGo fs doc root cfg includes []
        let out := sortBy pathLe parents
        .ok (if cfg.maxItems ≠ 0 ∧ out.length > cfg.maxItems then
          out.take cfg.maxItems else out)

/-! ## Scope store (src/services/search_path_service.py) -/

/-- `str(s).strip().replace("\\", "/").strip("/")` — the `_norm` helper of
`load_state` and `save_state`. -/
def svcNorm (s : String) : String :=
  stripSlashes (replBack (trimS s))

/-- A JSON field expected to be a list: missing or falsy (`x or []` gives
`[]`), an actual list of (stringified) entries, or a truthy non-list value
(which fails the `isinstance(…, list)` check). -/
inductive JField where
  | missingOrFalsy
  | list (xs : List String)
  | other
deriving Repr, DecidableEq

def JField.toListQ : JField → Option (List String)
  | .missingOrFalsy => some []
  | .list xs => some xs
  | .other => none

/-- The persisted `version` field: falsy (`int(x or 1)` → fallback),
an integer, or a value on which `int(...)` raises. -/
inductive JVer where
  | vnull
  | vint (n : Int)
  | vbad
deriving Repr, DecidableEq

/-- `int(data.get("version") or d)` — `none`(exception) on `vbad`. -/
def JVer.toIntOr (v : JVer) (d : Int) : Option Int :=
  match v with
  | .vnull => some d
  | .vint n => some (if n = 0 then d else n)
  | .vbad => none

/-- What `json.loads(state_file)` can observe: no file, unreadable/invalid
JSON, or an object with the three fields. -/
inductive StoredState where
  | missing
  | notJson
  | json (version : JVer) (includes : JField) (excludes : JField)
deriving Repr, DecidableEq

structure ScopeState where
  version : Int
  includes : List String
  excludes : List String
deriving Repr, DecidableEq

def REQUIRED_EXCLUDES_LOAD : List String := [".git", "vendor"]

def REQUIRED_EXCLUDES_SAVE : List String := [".git", "vendor", ".idea"]

def strLe (a b : String) : Bool := charsLe a.data b.data

/-- `sorted(list(dict.fromkeys(xs)))`: order-preserving dedup then sort. -/
def dedupFirst : List String → List String → List String
  | [], _ => []
  | x :: xs, seen =>
      if seen.contains x then dedupFirst xs seen
      else x :: dedupFirst xs (x :: seen)

/-- The default state returned for a missing or corrupt file. -/
def defaultScopeState : ScopeState :=
  ⟨2, [], sortBy strLe REQUIRED_EXCLUDES_LOAD⟩

/-- Literal reserved-name test used on normalized include entries:
equal to a reserved name or starting with `"<reserved>/"`. -/
def reservedLit (req : List String) (x : String) : Bool :=
  req.contains x || req.any (fun rx => strStarts x (rx ++ "/"))

/-- `SearchPathService.load_state` (search_path_service.py lines 41-71). -/
def load_state : StoredState → ScopeState
  | .missing => defaultScopeState
  | .notJson => defaultScopeState
  | .json ver inc exc =>
      match inc.toListQ, exc.toListQ with
      | some incL, some excL =>
          match ver.toIntOr 1 with
          | none => defaultScopeState
          | some v =>
              let incN := (incL.map svcNorm).filter (fun x => x ≠ "")
              let excN := (excL.map svcNorm).filter (fun x => x ≠ "")
              let incN2 := incN.filter
                (fun x => (reservedLit REQUIRED_EXCLUDES_LOAD x) = false)
              let excN2 := excN ++ REQUIRED_EXCLUDES_LOAD
              ⟨v, sortBy strLe (dedupFirst incN2 []),
                sortBy strLe (dedupFirst excN2 [])⟩
      | _, _ => defaultScopeState

/-- `SearchPathService._iter_files_under` (lines 83-115): a file entry maps
to itself, a directory entry expands to its recursively contained files with
the fixed infrastructure-name pruning strictly below it; entries escaping
the base or not existing map to nothing.  Paths returned are the resolved
base-relative POSIX forms. -/
def iterFilesUnder (fs : FS) (base : List String) (rel : String) :
    List String :=
  let rel' := stripSlashes (replBack rel)
  if rel' = "" then []
  else
    let target := normAbs (base ++ compsOf rel')
    match relTo base target with
    | none => []
    | some relT =>
        if fs.isFile target then [joinP relT]
        else if fs.isDir target then
          (fs.files.filter (fun f => walkHit target defaultExcluded f.1)).map
            (fun f => joinP (f.1.drop base.length))
        else []

/-- `SearchPathService.save_state` (lines 117-156): normalize, drop
reserved-literal includes, force reserved excludes, expand every surviving
include into the files below it, sort, and return the whole state. -/
def save_state (fs : FS) (base : List String)
    (includes excludes : List String) : ScopeState :=
  let incRaw := includes.filter (fun x => trimS x ≠ "")
  let excRaw := excludes.filter (fun x => trimS x ≠ "")
  let incNorm := (incRaw.map svcNorm).filter (fun x => x ≠ "")
  let excNorm := (excRaw.map svcNorm).filter (fun x => x ≠ "")
  let incNorm2 := incNorm.filter
    (fun x => (reservedLit REQUIRED_EXCLUDES_SAVE x) = false)
  let excNorm2 := excNorm ++ REQUIRED_EXCLUDES_SAVE
  let fileSet := dedupFirst ((incNorm2.map (iterFilesUnder fs base)).flatten) []
  ⟨2, sortBy strLe fileSet, sortBy strLe (dedupFirst excNorm2 [])⟩

/-! ## fs_tools write_file and its scope bookkeeping
(src/tools/fs_tools.py lines 205-266) -/

/-- The persisted scope document as `_add_to_search_includes` reads it. -/
inductive ScopeDoc where
  | missing
  | broken
  | okDoc (version : JVer) (includes : JField) (excludes : JField)
deriving Repr, DecidableEq

structure ScopeDocOut where
  version : Int
  includes : List String
  excludes : List String
deriving Repr, DecidableEq

def ScopeDocOut.toDoc (o : ScopeDocOut) : ScopeDoc :=
  .okDoc (.vint o.version) (.list o.includes) (.list o.excludes)

/-- `_add_to_search_includes(project_id, rel_path)`: read the document
(missing/broken ⇒ `{}`), append the normalized relative path to `includes`
when new and nonempty, default the version to 2, write everything back.
`none` models the swallowed exception (document left untouched). -/
def addToSearchIncludes (doc : ScopeDoc) (relPath : String) :
    Option ScopeDocOut :=
  let parts : Option (JVer × List String × List String) :=
    match doc with
    | .missing => some (.vnull, [], [])
    | .broken => some (.vnull, [], [])
    | .okDoc v i e =>
        match i.toListQ, e.toListQ with
        | some inc, some exc => some (v, inc, exc)
        | _, _ => none
  match parts with
  | none => none
  | some (v, inc, exc) =>
      let reln := stripSlashes (replBack relPath)
      let inc' := if reln ≠ "" ∧ inc.contains reln = false then inc ++ [reln]
                  else inc
      let ver := (v.toIntOr 2).getD 2
      some ⟨ver, inc', exc⟩

/-- `write_file` of fs_tools.py: the tools.py behaviour plus, for a path
that did not exist before, the best-effort scope bookkeeping
(`bookFails` models an I/O failure inside the swallowed `try`). -/
def write_file_fs (fs : FS) (scope : ScopeDoc) (base home : List String)
    (fp : InputPath) (content : String) (bookFails : Bool) :
    Bool × FS × ScopeDoc :=
  match resolveUnder base home fp with
  | none => (false, fs, scope)
  | some p =>
      let existed := fs.pExists p
      let fs' := fs.writeFile p content
      if existed then (true, fs', scope)
      else if bookFails then (true, fs', scope)
      else
        match addToSearchIncludes scope (joinP (p.drop base.length)) with
        | none => (true, fs', scope)
        | some o => (true, fs', o.toDoc)

/-! ## Grep engine (src/tools/fs_tools.py lines 406-611; the budget loop is
identical in src/tools/tools.py lines 1140-1298) -/

structure GrepCfg where
  maxFiles : Nat
  maxPerFile : Nat
  maxTotal : Nat
  sizeLimit : Nat
  timeoutEnabled : Bool

/-- Per-file scanning state after some matches were consumed. -/
structure FileScan where
  fileCnt : Nat
  total : Nat
  pft : Bool
  gt : Bool
deriving Repr, DecidableEq

/-- The `for m in it` body: count a match, then test the total budget, then
the per-file budget (fs_tools.py lines 573-581). -/
def procMatches (maxTotal maxPerFile : Nat) :
    Nat → Nat → Nat → FileScan
  | 0, fc, t => ⟨fc, t, false, false⟩
  | c + 1, fc, t =>
      let fc' := fc + 1
      let t' := t + 1
      if maxTotal ≠ 0 ∧ t' ≥ maxTotal then ⟨fc', t', true, true⟩
      else if maxPerFile ≠ 0 ∧ fc' ≥ maxPerFile then ⟨fc', t', true, false⟩
      else procMatches maxTotal maxPerFile c fc' t'

/-- The per-line loop over `pattern.finditer(line)` counts
(`hitCount` = number of regex matches in the line). -/
def procLines (maxTotal maxPerFile : Nat) (hitCount : String → Nat) :
    List String → Nat → Nat → FileScan
  | [], fc, t => ⟨fc, t, false, false⟩
  | l :: ls, fc, t =>
      let r := procMatches maxTotal maxPerFile (hitCount l) fc t
      if r.pft then r
      else procLines maxTotal maxPerFile hitCount ls r.fileCnt r.total

structure GrepAcc where
  scannedFiles : Nat
  matchedFiles : Nat
  totalMatches : Nat
  globalTrunc : Bool
  files : List (List String × Nat)
deriving Repr, DecidableEq

/-- The candidate loop of `search_grep` (fs_tools.py lines 510-599):
wall-clock check per candidate (`tmo i` = "the timeout has expired at the
`i`-th iteration"), existence/size screens, `max_files`, then the per-file
scan; `files` entries keep their match counts. -/
def grepGo (fs : FS) (root : List String) (cfg : GrepCfg)
    (hitCount : String → Nat) (tmo : Nat → Bool) :
    List (List String) → Nat → GrepAcc → GrepAcc
  | [], _, acc => acc
  | rel :: rest, i, acc =>
      if cfg.timeoutEnabled ∧ tmo i then { acc with globalTrunc := true }
      else
        match fs.content (normAbs (root ++ rel)) with
        | none => grepGo fs root cfg hitCount tmo rest (i + 1) acc
        | some c =>
            if cfg.sizeLimit ≠ 0 ∧ c.length > cfg.sizeLimit then
              grepGo fs root cfg hitCount tmo rest (i + 1) acc
            else
              let sf := acc.scannedFiles + 1
              if sf > cfg.maxFiles then
                { acc with scannedFiles := sf, globalTrunc := true }
              else
                let r := procLines cfg.maxTotal cfg.maxPerFile hitCount
                  (splitKeep c) 0 acc.totalMatches
                let acc' : GrepAcc :=
                  { scannedFiles := sf,
                    matchedFiles :=
                      acc.matchedFiles + (if r.fileCnt > 0 then 1 else 0),
                    totalMatches := r.total,
                    globalTrunc := r.gt,
                    files :=
                      if r.fileCnt > 0 then acc.files ++ [(rel, r.fileCnt)]
                      else acc.files }
                if r.gt then acc' else grepGo fs root cfg hitCount tmo rest (i + 1) acc'

/-- The result document of `search_grep` (fields used by the claims). -/
structure GrepOut where
  ok : Bool
  files : List (List String × Nat)
  totalMatches : Nat
  truncated : Bool
  scannedFiles : Nat
  matchedFiles : Nat
  errors : List String
deriving Repr, DecidableEq

/-- `search_grep` (fs_tools.py): validation prologue (`base_path` must be
under `doc_path` and a directory, regex must compile — `regexOk`), candidate
collection through the unified scanner, then the budgeted loop.  Failures
are fields of the result document, never exceptions. -/
def search_grep (fs : FS) (doc home : List String) (bp : InputPath)
    (regexOk : Bool) (hitCount : String → Nat) (tmo : Nat → Bool)
    (cfg : GrepCfg) (includes excludes : List String) (scanCfg : ScanCfg) :
    GrepOut :=
  let root := pyResolve doc home bp
  match relTo doc root with
  | none => ⟨false, [], 0, false, 0, 0, ["base_path must be under doc_path"]⟩
  | some _ =>
      if fs.isDir root = false then
        ⟨false, [], 0, false, 0, 0, ["base_path not found or not directory"]⟩
      else if regexOk = false then
        ⟨false, [], 0, false, 0, 0, ["invalid regex"]⟩
      else
        match scan_tree_files fs doc home ⟨true, root⟩ includes excludes scanCfg with
        | .error e => ⟨false, [], 0, false, 0, 0, [e]⟩
        | .ok cands =>
            let acc := grepGo fs root cfg hitCount tmo cands 0 ⟨0, 0, 0, false, []⟩
            ⟨true, acc.files, acc.totalMatches, acc.globalTrunc,
              acc.scannedFiles, acc.matchedFiles, []⟩

/-! ## updateCode — not present under src/ -/

/-- Modelled from the spec: the `updateCode` text-surgery operation is
missing from src/ (only insert/delete exist there); §4.6 of the spec:
"`update`: replaces the inclusive range with the payload; if the range is
anchor-derived and the payload spans multiple lines with no explicit
`length`, the call is refused with `AmbiguousRangeError` rather than
guessing."  The range is 1-based inclusive, anchor resolution as in the
sibling operations. -/
def update_code_lines (lines payload : List String) (addr : DeleteAddr) :
    Except String Unit × List String :=
  match addr with
  | .byRange ls le =>
      let s := max 1 ls
      let e := le.getD s
      if s > e then (.error "invalid_range", lines)
      else
        let a := pyIdx lines.length (s - 1)
        let b := pyIdx lines.length e
        (.ok (), lines.take a ++ payload ++ lines.drop (max a b))
  | .byAnchor m occ nth off len? =>
      match resolveAnchor m occ nth lines with
      | .error err => (.error err, lines)
      | .ok bl =>
          if payload.length > 1 ∧ len? = none then
            (.error "AmbiguousRangeError", lines)
          else
            let s : Int := (bl : Int) + off
            let e : Int := s + len?.getD 1 - 1
            if s > e then (.error "invalid_range", lines)
            else
              let a := pyIdx lines.length (s - 1)
              let b := pyIdx lines.length e
              (.ok (), lines.take a ++ payload ++ lines.drop (max a b))

/-! ## Helper lemmas -/

theorem collectRange_take {e : Int} : ∀ (ls : List String) {i s : Int}, s ≤ i →
    collectRange ls i s e = ls.take (e - i + 1).toNat := by
  intro ls
  induction ls with
  | nil => intro i s _; simp [collectRange]
  | cons l ls ih =>
      intro i s h
      unfold collectRange
      have hns : ¬ i < s := not_lt.mpr h
      by_cases he : i > e
      · have h0 : (e - i + 1).toNat = 0 := by omega
        simp [hns, he, h0]
      · have h1 : (e - i + 1).toNat = (e - (i + 1) + 1).toNat + 1 := by omega
        have h2 : s ≤ i + 1 := by omega
        simp [hns, he, ih h2, h1]

theorem collectRange_drop_take {e : Int} : ∀ (ls : List String) {i s : Int},
    i ≤ s →
    collectRange ls i s e = (ls.drop (s - i).toNat).take (e - s + 1).toNat := by
  intro ls
  induction ls with
  | nil => intro i s _; simp [collectRange]
  | cons l ls ih =>
      intro i s h
      by_cases hlt : i < s
      · have h1 : (s - i).toNat = (s - (i + 1)).toNat + 1 := by omega
        have h2 : i + 1 ≤ s := by omega
        unfold collectRange
        simp [hlt, ih h2, h1]
      · have heq : s ≤ i := not_lt.mp hlt
        have hs : s = i := le_antisymm heq h
        subst hs
        rw [collectRange_take _ le_rfl]
        simp

/-- Claim C10 — `read_file_range` on an existing file under `doc_path`:
no range error for any integer bounds; the start is clamped to
`max(1, start_line)`, the end to `max(start, end_line)`, the result is
`exists=true`, the concatenation of exactly the file's lines inside the
clamped inclusive range (empty past end of file), and the clamped bounds
are echoed back. -/
theorem readFileRange_clamps (fs : FS) (base home : List String)
    (fp : InputPath) (startLine endLine : Int) (p : List String) (c : String)
    (hres : resolveUnder base home fp = some p)
    (hc : fs.content p = some c) :
    read_file_range fs base home fp startLine endLine =
      ⟨true, some (max 1 startLine), some (max (max 1 startLine) endLine),
        some (String.join
          (((splitKeep c).drop ((max 1 startLine) - 1).toNat).take
            ((max (max 1 startLine) endLine) - (max 1 startLine) + 1).toNat)),
        some p, none⟩ := by
  have h1 : (1 : Int) ≤ max 1 startLine := le_max_left _ _
  simp only [read_file_range, hres, hc]
  rw [collectRange_drop_take _ h1]

/-- Witness for C10 at a concrete file and out-of-range bounds. -/
theorem readFileRange_clamps_witness :
    resolveUnder ["r"] [] ⟨false, ["f.txt"]⟩ = some ["r", "f.txt"] ∧
    (FS.content ⟨[(["r", "f.txt"], "a\nb\nc\n")], []⟩ ["r", "f.txt"])
      = some "a\nb\nc\n" ∧
    read_file_range ⟨[(["r", "f.txt"], "a\nb\nc\n")], []⟩ ["r"] []
        ⟨false, ["f.txt"]⟩ (-5) 2 =
      ⟨true, some 1, some 2, some "a\nb\n", some ["r", "f.txt"], none⟩ := by
  refine ⟨by rfl, by rfl, ?_⟩
  have h := readFileRange_clamps ⟨[(["r", "f.txt"], "a\nb\nc\n")], []⟩ ["r"] []
    ⟨false, ["f.txt"]⟩ (-5) 2 ["r", "f.txt"] "a\nb\nc\n" (by rfl) (by rfl)
  rw [h]
  rfl

/-- Claim C8 — frame property of a line-addressed insert: for a resolved
1-based target line `n` of the file, `where="before"` splices the payload at
position `n` and `where="after"` at position `n+1`; the pre-existing lines
(`pre`, the target line `x`, `post`) are untouched and keep their order, so
the two runs with identical payloads differ only in the payload's position
relative to line `n`. -/
theorem insert_before_after (lines code : List String) (n : Nat)
    (h1 : 1 ≤ n) (h2 : n ≤ lines.length) :
    ∃ pre post x, lines = pre ++ x :: post ∧ pre.length = n - 1 ∧
      insert_code_lines lines code (.byLine (n : Int)) "before" =
        (.ok ⟨(n : Int), (n : Int)⟩, pre ++ code ++ x :: post) ∧
      insert_code_lines lines code (.byLine (n : Int)) "after" =
        (.ok ⟨(n : Int) + 1, (n : Int)⟩, pre ++ x :: (code ++ post)) := by
  have hlt : n - 1 < lines.length := by omega
  have hdrop : lines.drop (n - 1) = lines[n - 1] :: lines.drop n := by
    have hn : n - 1 + 1 = n := by omega
    rw [List.drop_eq_getElem_cons hlt, hn]
  have htake : lines.take n = lines.take (n - 1) ++ [lines[n - 1]] := by
    have hn : n = (n - 1) + 1 := by omega
    conv_lhs => rw [hn]
    rw [List.take_succ]
    simp [List.getElem?_eq_getElem hlt]
  have hmax : max 1 (n : Int) = (n : Int) := by omega
  have htn1 : ((n : Int) - 1).toNat = n - 1 := by omega
  have htn : (n : Int).toNat = n := by omega
  have hmin1 : min (n - 1) lines.length = n - 1 := by omega
  have hminn : min n lines.length = n := by omega
  refine ⟨lines.take (n - 1), lines.drop n, lines[n - 1], ?_, ?_, ?_, ?_⟩
  · conv_lhs => rw [← List.take_append_drop (n - 1) lines]
    rw [hdrop]
  · rw [List.length_take]
    omega
  · have hw : insert_code_lines lines code (.byLine (n : Int)) "before" =
        (.ok ⟨((n - 1 : Nat) : Int) + 1, (n : Int)⟩,
          lines.take (n - 1) ++ code ++ lines.drop (n - 1)) := by
      simp [insert_code_lines, hmax, htn1, hmin1]
    rw [hw, hdrop]
    have hc : ((n - 1 : Nat) : Int) + 1 = (n : Int) := by omega
    rw [hc]
  · have hw : insert_code_lines lines code (.byLine (n : Int)) "after" =
        (.ok ⟨(n : Int) + 1, (n : Int)⟩,
          lines.take n ++ code ++ lines.drop n) := by
      simp [insert_code_lines, hmax, htn, hminn]
    rw [hw, htake]
    simp only [List.append_assoc, List.singleton_append, List.cons_append,
      List.nil_append]

/-- Witness for C8 at a concrete three-line file and line 2. -/
theorem insert_before_after_witness :
    1 ≤ 2 ∧ 2 ≤ (["a\n", "b\n", "c\n"] : List String).length ∧
    ∃ pre post x, (["a\n", "b\n", "c\n"] : List String) = pre ++ x :: post ∧
      pre.length = 2 - 1 ∧
      insert_code_lines ["a\n", "b\n", "c\n"] ["X\n"] (.byLine (2 : Int))
          "before" = (.ok ⟨2, 2⟩, pre ++ ["X\n"] ++ x :: post) ∧
      insert_code_lines ["a\n", "b\n", "c\n"] ["X\n"] (.byLine (2 : Int))
          "after" = (.ok ⟨2 + 1, 2⟩, pre ++ x :: (["X\n"] ++ post)) :=
  ⟨by omega, by simp,
    insert_before_after ["a\n", "b\n", "c\n"] ["X\n"] 2 (by omega) (by simp)⟩

/-- Claim C7 — `updateCode` (modelled from the spec; no implementation
exists under src/): a call with an anchor-derived range, a multi-line
payload and no explicit `length` is refused with `AmbiguousRangeError` and
the file content is returned byte-for-byte unchanged. -/
theorem update_anchor_multiline_refused (lines payload : List String)
    (m : AnchorMode) (occ : String) (nth off : Int) (bl : Nat)
    (hres : resolveAnchor m occ nth lines = .ok bl)
    (hlen : 1 < payload.length) :
    update_code_lines lines payload (.byAnchor m occ nth off none) =
      (.error "AmbiguousRangeError", lines) := by
  simp [update_code_lines, hres, hlen]

/-- Witness for C7: anchor `"TODO"`, a 3-line payload, no length. -/
theorem update_anchor_multiline_refused_witness :
    resolveAnchor (.substr "TODO") "first" 1 ["a TODO x\n", "b\n"] = .ok 1 ∧
    1 < (["p\n", "q\n", "r\n"] : List String).length ∧
    update_code_lines ["a TODO x\n", "b\n"] ["p\n", "q\n", "r\n"]
        (.byAnchor (.substr "TODO") "first" 1 0 none) =
      (.error "AmbiguousRangeError", ["a TODO x\n", "b\n"]) :=
  ⟨by rfl, by simp,
    update_anchor_multiline_refused ["a TODO x\n", "b\n"] ["p\n", "q\n", "r\n"]
      (.substr "TODO") "first" 1 0 1 (by rfl) (by simp)⟩

/-! ## Membership lemmas for dedup and `List.contains` over strings -/

theorem scontains {l : List String} {a : String} :
    l.contains a = true ↔ a ∈ l := by
  simp [List.contains, List.elem_iff]

theorem mem_dedupFirst {x : String} : ∀ (l seen : List String),
    x ∈ dedupFirst l seen ↔ (x ∈ l ∧ x ∉ seen) := by
  intro l
  induction l with
  | nil => intro seen; simp [dedupFirst]
  | cons y ys ih =>
      intro seen
      unfold dedupFirst
      by_cases hy : y ∈ seen
      · have hb : seen.contains y = true := scontains.mpr hy
        rw [hb]
        simp only [if_true, ih, List.mem_cons]
        constructor
        · rintro ⟨h1, h2⟩
          exact ⟨Or.inr h1, h2⟩
        · rintro ⟨h1 | h1, h2⟩
          · exact absurd (h1 ▸ hy) h2
          · exact ⟨h1, h2⟩
      · have hb : seen.contains y = false := by
          cases hcb : seen.contains y
          · rfl
          · exact absurd (scontains.mp hcb) hy
        rw [hb]
        simp only [Bool.false_eq_true, if_false, List.mem_cons, ih]
        by_cases hxy : x = y
        · subst hxy
          simp [hy]
        · simp [hxy]

/-- Claim C3 — `load_state` never raises: a missing file, invalid JSON, or
non-list includes/excludes all yield the default state
`{version: 2, includes: [], excludes: ['.git', 'vendor']}`; and for every
persisted content whatsoever, the returned excludes contain the reserved
names. -/
theorem loadState_total_defaults (st : StoredState) :
    load_state .missing = defaultScopeState ∧
    load_state .notJson = defaultScopeState ∧
    (∀ v i e, st = .json v i e → (i.toListQ = none ∨ e.toListQ = none) →
        load_state st = defaultScopeState) ∧
    defaultScopeState = ⟨2, [], [".git", "vendor"]⟩ ∧
    ".git" ∈ (load_state st).excludes ∧ "vendor" ∈ (load_state st).excludes := by
  refine ⟨rfl, rfl, ?_, by decide, ?_⟩
  · rintro v i e rfl (hf | hf) <;>
      · cases i <;> cases e <;> simp_all [load_state, JField.toListQ]
  · cases st with
    | missing => decide
    | notJson => decide
    | json v i e =>
        cases i <;> cases e <;> cases v <;>
          simp [load_state, JField.toListQ, JVer.toIntOr, defaultScopeState,
            mem_sortBy, mem_dedupFirst, REQUIRED_EXCLUDES_LOAD]

/-- Witness for C3 at a malformed stored state (includes is a non-list). -/
theorem loadState_total_defaults_witness :
    StoredState.json .vnull .other (.list ["x"]) =
        .json .vnull .other (.list ["x"]) ∧
    (JField.other.toListQ = none ∨ (JField.list ["x"]).toListQ = none) ∧
    load_state (.json .vnull .other (.list ["x"])) = defaultScopeState ∧
    ".git" ∈ (load_state (.json .vnull .other (.list ["x"]))).excludes := by
  have h := loadState_total_defaults (.json .vnull .other (.list ["x"]))
  refine ⟨rfl, Or.inl rfl, ?_, h.2.2.2.2.1⟩
  exact h.2.2.1 _ _ _ rfl (Or.inl rfl)

/-! ## Anchor-collection characterization (for C6) -/

theorem mem_collectAnchors {m : AnchorMode} {lines : List String} {i : Nat} :
    i ∈ collectAnchors m lines ↔
      1 ≤ i ∧ ∃ h : i - 1 < lines.length,
        lineHit m (lines.get ⟨i - 1, h⟩) = true := by
  unfold collectAnchors
  rw [List.mem_map]
  constructor
  · rintro ⟨⟨j, l⟩, hmem, rfl⟩
    rw [List.mem_filter] at hmem
    obtain ⟨henum, hhit⟩ := hmem
    rw [List.mk_mem_enumFrom_iff_le_and_getElem?_sub] at henum
    obtain ⟨h1, hget⟩ := henum
    rw [List.getElem?_eq_some] at hget
    obtain ⟨hlt, hl⟩ := hget
    exact ⟨h1, hlt, by simpa [hl] using hhit⟩
  · rintro ⟨h1, hlt, hhit⟩
    refine ⟨(i, lines.get ⟨i - 1, hlt⟩), ?_, rfl⟩
    rw [List.mem_filter]
    refine ⟨?_, hhit⟩
    rw [List.mk_mem_enumFrom_iff_le_and_getElem?_sub]
    exact ⟨h1, by simp [List.getElem?_eq_getElem hlt]⟩

theorem enumFrom_filter_map_ge {p : Nat × String → Bool} :
    ∀ (ls : List String) (n x : Nat),
      x ∈ ((List.enumFrom n ls).filter p).map (fun ie => ie.1) → n ≤ x := by
  intro ls
  induction ls with
  | nil => intro n x h; simp at h
  | cons l ls ih =>
      intro n x h
      rw [List.enumFrom_cons, List.filter_cons] at h
      by_cases hp : p (n, l) = true
      · rw [if_pos hp] at h
        simp only [List.map_cons, List.mem_cons] at h
        rcases h with rfl | h
        · exact le_rfl
        · exact le_trans (Nat.le_succ n) (ih (n + 1) x h)
      · rw [if_neg hp] at h
        exact le_trans (Nat.le_succ n) (ih (n + 1) x h)

theorem collectAnchors_sorted (m : AnchorMode) (lines : List String) :
    (collectAnchors m lines).Sorted (· < ·) := by
  unfold collectAnchors
  suffices h : ∀ (ls : List String) (n : Nat),
      (((List.enumFrom n ls).filter (fun ie => lineHit m ie.2)).map
        (fun ie => ie.1)).Sorted (· < ·) from h lines 1
  intro ls
  induction ls with
  | nil => intro n; simp [List.Sorted]
  | cons l ls ih =>
      intro n
      rw [List.enumFrom_cons, List.filter_cons]
      by_cases hp : lineHit m (n, l).2 = true
      · rw [if_pos hp]
        rw [List.map_cons, List.sorted_cons]
        refine ⟨fun x hx => ?_, ih (n + 1)⟩
        exact lt_of_lt_of_le (Nat.lt_succ_self n) (enumFrom_filter_map_ge ls (n + 1) x hx)
      · rw [if_neg hp]
        exact ih (n + 1)

/-- Claim C6 — anchor addressing of `insert_code` and `delete_code`:
the collected matches are exactly the 1-based indices of the lines the
anchor hits (substring or regex), in top-to-bottom order; no match ⇒
`anchor_not_found` and the file is unchanged; `occurrence="nth"` with `nth`
outside `1..len(matches)` ⇒ `nth_out_of_range` and the file is unchanged;
`nth` in range resolves the nth match; with exactly three matching lines,
`nth=2` resolves the second and `nth=4` fails. -/
theorem anchor_occurrence_semantics (m : AnchorMode) (lines code : List String)
    (occ wh uid cp : String) (nth off : Int) (len? : Option Int)
    (markOnly : Bool) :
    (∀ i, i ∈ collectAnchors m lines ↔
      1 ≤ i ∧ ∃ h : i - 1 < lines.length,
        lineHit m (lines.get ⟨i - 1, h⟩) = true) ∧
    (collectAnchors m lines).Sorted (· < ·) ∧
    (collectAnchors m lines = [] →
      insert_code_lines lines code (.byAnchor m occ nth) wh =
        (.error "anchor_not_found", lines) ∧
      delete_code_lines lines (.byAnchor m occ nth off len?) markOnly uid cp =
        (⟨false, none, none, none, 0, false, none, none,
            some "anchor_not_found"⟩, lines)) ∧
    (collectAnchors m lines ≠ [] → occNorm occ = "nth" →
      (nth < 1 ∨ nth > ((collectAnchors m lines).length : Int)) →
      insert_code_lines lines code (.byAnchor m occ nth) wh =
        (.error "nth_out_of_range", lines) ∧
      delete_code_lines lines (.byAnchor m occ nth off len?) markOnly uid cp =
        (⟨false, none, none, none, 0, false, none, none,
            some "nth_out_of_range"⟩, lines)) ∧
    (collectAnchors m lines ≠ [] → occNorm occ = "nth" →
      1 ≤ nth → nth ≤ ((collectAnchors m lines).length : Int) →
      resolveAnchor m occ nth lines =
        .ok ((collectAnchors m lines).getD (nth - 1).toNat 0)) ∧
    ((collectAnchors m lines).length = 3 →
      resolveAnchor m "nth" 2 lines =
        .ok ((collectAnchors m lines).getD 1 0) ∧
      resolveAnchor m "nth" 4 lines = .error "nth_out_of_range") := by
  refine ⟨fun i => mem_collectAnchors, collectAnchors_sorted m lines,
    ?_, ?_, ?_, ?_⟩
  · intro hnil
    have hra : resolveAnchor m occ nth lines = .error "anchor_not_found" := by
      simp [resolveAnchor, hnil]
    exact ⟨by simp [insert_code_lines, hra],
      by simp [delete_code_lines, hra]⟩
  · intro hne hocc hout
    have hra : resolveAnchor m occ nth lines = .error "nth_out_of_range" := by
      have h1 : ¬ occNorm occ = "first" := by rw [hocc]; decide
      have h2 : ¬ occNorm occ = "last" := by rw [hocc]; decide
      simp [resolveAnchor, hne, h1, h2, hocc, hout]
    exact ⟨by simp [insert_code_lines, hra],
      by simp [delete_code_lines, hra]⟩
  · intro hne hocc h1 h2
    have hh1 : ¬ occNorm occ = "first" := by rw [hocc]; decide
    have hh2 : ¬ occNorm occ = "last" := by rw [hocc]; decide
    have hout : ¬ (nth < 1 ∨ nth > ((collectAnchors m lines).length : Int)) := by
      omega
    simp [resolveAnchor, hne, hh1, hh2, hocc, hout]
  · intro h3
    have hne : collectAnchors m lines ≠ [] := by
      intro hc
      rw [hc] at h3
      simp at h3
    have hlow : lowerS "nth" = "nth" := by decide
    constructor
    · simp [resolveAnchor, hne, occNorm, hlow, h3]
    · simp [resolveAnchor, hne, occNorm, hlow, h3]

/-- Witness for C6: a file with exactly three `"TODO"` lines; `nth=2`
resolves the second matching line (line 3), `nth=4` is out of range. -/
theorem anchor_occurrence_semantics_witness :
    collectAnchors (.substr "TODO")
        ["x TODO\n", "b\n", "TODO y\n", "z TODO\n"] = [1, 3, 4] ∧
    resolveAnchor (.substr "TODO") "nth" 2
        ["x TODO\n", "b\n", "TODO y\n", "z TODO\n"] = .ok 3 ∧
    resolveAnchor (.substr "TODO") "nth" 4
        ["x TODO\n", "b\n", "TODO y\n", "z TODO\n"] =
      .error "nth_out_of_range" := by
  have h := (anchor_occurrence_semantics (.substr "TODO")
    ["x TODO\n", "b\n", "TODO y\n", "z TODO\n"] [] "nth" "after" "u" "#"
    2 0 none false).2.2.2.2.2 (by rfl)
  refine ⟨by rfl, ?_, h.2⟩
  rw [h.1]
  rfl

/-- Claim C9 — the fs_tools `write_file` scope bookkeeping: a successful
write of a previously missing path additionally appends the file's
doc_path-relative POSIX path to the includes array of the persisted scope
document (creating the document when absent, keeping the existing includes
and excludes otherwise — an in-place partial update); overwriting an
existing file leaves the document untouched; and a failure of the
bookkeeping step never changes the `True` return value. -/
theorem writeFile_scope_bookkeeping (fs : FS) (scope : ScopeDoc)
    (base home : List String) (fp : InputPath) (content : String)
    (bookFails : Bool) :
    (resolveUnder base home fp = none →
      write_file_fs fs scope base home fp content bookFails =
        (false, fs, scope)) ∧
    (∀ p, resolveUnder base home fp = some p →
      (write_file_fs fs scope base home fp content bookFails).1 = true ∧
      (write_file_fs fs scope base home fp content bookFails).2.1 =
        fs.writeFile p content) ∧
    (∀ p, resolveUnder base home fp = some p → fs.pExists p = true →
      (write_file_fs fs scope base home fp content bookFails).2.2 = scope) ∧
    (∀ p, resolveUnder base home fp = some p → fs.pExists p = false →
      bookFails = false →
      ∀ o, addToSearchIncludes scope (joinP (p.drop base.length)) = some o →
        (write_file_fs fs scope base home fp content bookFails).2.2 =
          o.toDoc) ∧
    (∀ p, resolveUnder base home fp = some p → fs.pExists p = false →
      (bookFails = true ∨
        addToSearchIncludes scope (joinP (p.drop base.length)) = none) →
      (write_file_fs fs scope base home fp content bookFails).2.2 = scope) ∧
    (∀ v inc exc rel o,
      addToSearchIncludes (.okDoc v (.list inc) (.list exc)) rel = some o →
        o.excludes = exc ∧
        o.includes =
          (if stripSlashes (replBack rel) ≠ "" ∧
              inc.contains (stripSlashes (replBack rel)) = false
            then inc ++ [stripSlashes (replBack rel)] else inc)) ∧
    (∀ rel, stripSlashes (replBack rel) ≠ "" →
      addToSearchIncludes .missing rel =
        some ⟨2, [stripSlashes (replBack rel)], []⟩) := by
  refine ⟨?_, ?_, ?_, ?_, ?_, ?_, ?_⟩
  · intro hnone
    simp [write_file_fs, hnone]
  · intro p hp
    cases hex : fs.pExists p <;>
      cases hbf : bookFails <;>
        cases hadd : addToSearchIncludes scope (joinP (p.drop base.length)) <;>
          simp [write_file_fs, hp, hex, hbf, hadd]
  · intro p hp hex
    simp [write_file_fs, hp, hex]
  · intro p hp hex hbf o hadd
    simp [write_file_fs, hp, hex, hbf, hadd]
  · intro p hp hex hcase
    rcases hcase with hbf | hadd
    · simp [write_file_fs, hp, hex, hbf]
    · cases hbf : bookFails <;> simp [write_file_fs, hp, hex, hbf, hadd]
  · intro v inc exc rel o hadd
    simp only [addToSearchIncludes, JField.toListQ] at hadd
    by_cases hc : stripSlashes (replBack rel) ≠ "" ∧
        inc.contains (stripSlashes (replBack rel)) = false
    · rw [if_pos hc]
      cases hadd' : (v.toIntOr 2) <;>
        · simp [hadd', hc] at hadd
          simp [← hadd]
          intro hm
          have hcm := scontains.mpr hm
          rw [hc.2] at hcm
          simp at hcm
    · rw [if_neg hc]
      cases hadd' : (v.toIntOr 2) <;>
        · simp [hadd', hc] at hadd
          simp [← hadd]
          intro hne
          rcases not_and_or.mp hc with h1 | h2
          · exact absurd (not_not.mp h1) hne
          · have hct : inc.contains (stripSlashes (replBack rel)) = true := by
              cases hcb : inc.contains (stripSlashes (replBack rel))
              · exact absurd hcb h2
              · rfl
            exact scontains.mp hct
  · intro rel hrel
    simp [addToSearchIncludes, JVer.toIntOr, hrel]

/-- Witness for C9: creating `new.py` under an empty project with no scope
document appends `"new.py"` to a freshly created document and returns
`True`. -/
theorem writeFile_scope_bookkeeping_witness :
    resolveUnder ["r"] [] ⟨false, ["new.py"]⟩ = some ["r", "new.py"] ∧
    (FS.pExists ⟨[], [["r"]]⟩ ["r", "new.py"]) = false ∧
    addToSearchIncludes .missing "new.py" = some ⟨2, ["new.py"], []⟩ ∧
    write_file_fs ⟨[], [["r"]]⟩ .missing ["r"] [] ⟨false, ["new.py"]⟩ "x"
        false =
      (true, FS.writeFile ⟨[], [["r"]]⟩ ["r", "new.py"] "x",
        ScopeDocOut.toDoc ⟨2, ["new.py"], []⟩) ∧
    (write_file_fs ⟨[], [["r"]]⟩ .missing ["r"] [] ⟨false, ["new.py"]⟩ "x"
        true).1 = true := by
  have h := writeFile_scope_bookkeeping ⟨[], [["r"]]⟩ .missing ["r"] []
    ⟨false, ["new.py"]⟩ "x" false
  have ht := writeFile_scope_bookkeeping ⟨[], [["r"]]⟩ .missing ["r"] []
    ⟨false, ["new.py"]⟩ "x" true
  refine ⟨by rfl, by rfl, ?_, ?_, (ht.2.1 ["r", "new.py"] (by rfl)).1⟩
  · exact h.2.2.2.2.2.2 "new.py" (by decide)
  · have h1 := h.2.1 ["r", "new.py"] (by rfl)
    have h2 := h.2.2.2.1 ["r", "new.py"] (by rfl) (by rfl) rfl
      ⟨2, ["new.py"], []⟩ (h.2.2.2.2.2.2 "new.py" (by decide))
    have hfst := h1.1
    have hsnd := h1.2
    cases hw : write_file_fs ⟨[], [["r"]]⟩ .missing ["r"] []
        ⟨false, ["new.py"]⟩ "x" false with
    | mk a bc =>
        cases bc with
        | mk b c =>
            rw [hw] at hfst hsnd h2
            simp at hfst hsnd h2
            rw [hfst, hsnd, h2]

/-! ## Scanner membership lemmas (for C1 and C2) -/

theorem isFile_of_mem {fs : FS} {f : List String × String}
    (hf : f ∈ fs.files) : fs.isFile f.1 = true := by
  simp only [FS.isFile, List.any_eq_true]
  exact ⟨f, hf, by simp⟩

theorem mem_addFile {doc root includes excl : List String} {cfg : ScanCfg}
    {st : List (List String)} {absF r : List String}
    (h : r ∈ addFile doc root includes excl cfg st absF) :
    r ∈ st ∨ (root ++ r = absF ∧ doc <+: absF) := by
  unfold addFile at h
  cases hd : relTo doc absF with
  | none => rw [hd] at h; exact Or.inl h
  | some relDoc =>
      simp only [hd] at h
      split at h
      · exact Or.inl h
      · cases hr : relTo root absF with
        | none => rw [hr] at h; exact Or.inl h
        | some relRoot =>
            simp only [hr] at h
            split at h
            · exact Or.inl h
            · split at h
              · exact Or.inl h
              · split at h
                · exact Or.inl h
                · split at h
                  · exact Or.inl h
                  · rcases List.mem_append.mp h with h' | h'
                    · exact Or.inl h'
                    · simp at h'
                      subst h'
                      exact Or.inr ⟨(relTo_eq_some hr).2.symm,
                        (relTo_eq_some hd).1⟩

theorem walkAdd_mem {doc root includes excl : List String} {cfg : ScanCfg}
    {absT : List String} :
    ∀ (files : List (List String × String)) (st : List (List String))
      {r : List String},
      r ∈ (walkAdd doc root includes excl cfg absT files st).1 →
      r ∈ st ∨ (doc <+: root ++ r ∧ ∃ f ∈ files, f.1 = root ++ r) := by
  intro files
  induction files with
  | nil => intro st r h; exact Or.inl h
  | cons f rest ih =>
      intro st r h
      unfold walkAdd at h
      by_cases hw : walkHit absT cfg.excludedNames f.1 = true
      · rw [if_pos hw] at h
        by_cases hm : cfg.maxItems ≠ 0 ∧
            (addFile doc root includes excl cfg st f.1).length ≥ cfg.maxItems
        · rw [if_pos hm] at h
          rcases mem_addFile h with h' | ⟨h1, h2⟩
          · exact Or.inl h'
          · exact Or.inr ⟨h1 ▸ h2, f, List.mem_cons_self f rest, h1.symm⟩
        · rw [if_neg hm] at h
          rcases ih _ h with h' | ⟨hpre, f', hf', heq⟩
          · rcases mem_addFile h' with h'' | ⟨h1, h2⟩
            · exact Or.inl h''
            · exact Or.inr ⟨h1 ▸ h2, f, List.mem_cons_self f rest, h1.symm⟩
          · exact Or.inr ⟨hpre, f', List.mem_cons_of_mem f hf', heq⟩
      · rw [if_neg hw] at h
        rcases ih _ h with h' | ⟨hpre, f', hf', heq⟩
        · exact Or.inl h'
        · exact Or.inr ⟨hpre, f', List.mem_cons_of_mem f hf', heq⟩

/-- Every path added by the files-mode scan loop resolves to a file under
`doc_path` and under the request root. -/
theorem scanFilesGo_mem {fs : FS} {doc root : List String}
    {includes excl : List String} {cfg : ScanCfg} :
    ∀ (entries : List String) (st : List (List String)) {r : List String},
      r ∈ (scanFilesGo fs doc root includes excl cfg entries st).1 →
      r ∈ st ∨ (doc <+: root ++ r ∧ fs.isFile (root ++ r) = true) := by
  intro entries
  induction entries with
  | nil => intro st r h; exact Or.inl h
  | cons entry rest ih =>
      intro st r h
      unfold scanFilesGo at h
      by_cases h0 : normEntry entry = ""
      · rw [if_pos h0] at h
        exact ih _ h
      · rw [if_neg h0] at h
        by_cases h1 : cfg.incEntryOk (normEntry entry) = false
        · rw [if_pos h1] at h
          exact ih _ h
        · rw [if_neg h1] at h
          by_cases h2 : fs.isFile (normAbs (doc ++ compsOf (normEntry entry)))
              = true
          · rw [if_pos h2] at h
            by_cases hm : cfg.maxItems ≠ 0 ∧
                (addFile doc root includes excl cfg st
                  (normAbs (doc ++ compsOf (normEntry entry)))).length ≥
                  cfg.maxItems
            · rw [if_pos hm] at h
              rcases mem_addFile h with h' | ⟨hh1, hh2⟩
              · exact Or.inl h'
              · exact Or.inr ⟨hh1 ▸ hh2, hh1 ▸ h2⟩
            · rw [if_neg hm] at h
              rcases ih _ h with h' | hgood
              · rcases mem_addFile h' with h'' | ⟨hh1, hh2⟩
                · exact Or.inl h''
                · exact Or.inr ⟨hh1 ▸ hh2, hh1 ▸ h2⟩
              · exact Or.inr hgood
          · rw [if_neg h2] at h
            by_cases h3 : fs.isDir (normAbs (doc ++ compsOf (normEntry entry)))
                = true ∧ cfg.allowAncestor = true
            · rw [if_pos h3] at h
              cases hwalk : walkAdd doc root includes excl cfg
                  (normAbs (doc ++ compsOf (normEntry entry))) fs.files st with
              | mk st' stop =>
                  rw [hwalk] at h
                  cases stop with
                  | true =>
                      have hst' : r ∈ st' := h
                      have := walkAdd_mem fs.files st
                        (r := r) (by rw [hwalk]; exact hst')
                      rcases this with h' | ⟨hpre, f, hf, heq⟩
                      · exact Or.inl h'
                      · exact Or.inr ⟨hpre, heq ▸ isFile_of_mem hf⟩
                  | false =>
                      rcases ih _ h with h' | hgood
                      · have := walkAdd_mem fs.files st
                          (r := r) (by rw [hwalk]; exact h')
                        rcases this with h'' | ⟨hpre, f, hf, heq⟩
                        · exact Or.inl h''
                        · exact Or.inr ⟨hpre, heq ▸ isFile_of_mem hf⟩
                      · exact Or.inr hgood
            · rw [if_neg h3] at h
              exact ih _ h

/-- With ancestor expansion disabled (the find_files / list_files
configuration), every path added by the files-mode scan loop is the resolved
form of an entry of the stored includes whitelist that is a file on disk. -/
theorem scanFilesGo_whitelist {fs : FS} {doc root : List String}
    {includes excl : List String} {cfg : ScanCfg}
    (hA : cfg.allowAncestor = false) :
    ∀ (entries : List String) (st : List (List String)) {r : List String},
      r ∈ (scanFilesGo fs doc root includes excl cfg entries st).1 →
      r ∈ st ∨ ∃ e ∈ entries,
        normAbs (doc ++ compsOf (normEntry e)) = root ++ r ∧
        fs.isFile (normAbs (doc ++ compsOf (normEntry e))) = true := by
  intro entries
  induction entries with
  | nil => intro st r h; exact Or.inl h
  | cons entry rest ih =>
      intro st r h
      unfold scanFilesGo at h
      by_cases h0 : normEntry entry = ""
      · rw [if_pos h0] at h
        rcases ih _ h with h' | ⟨e, he, hres⟩
        · exact Or.inl h'
        · exact Or.inr ⟨e, List.mem_cons_of_mem entry he, hres⟩
      · rw [if_neg h0] at h
        by_cases h1 : cfg.incEntryOk (normEntry entry) = false
        · rw [if_pos h1] at h
          rcases ih _ h with h' | ⟨e, he, hres⟩
          · exact Or.inl h'
          · exact Or.inr ⟨e, List.mem_cons_of_mem entry he, hres⟩
        · rw [if_neg h1] at h
          by_cases h2 : fs.isFile (normAbs (doc ++ compsOf (normEntry entry)))
              = true
          · rw [if_pos h2] at h
            by_cases hm : cfg.maxItems ≠ 0 ∧
                (addFile doc root includes excl cfg st
                  (normAbs (doc ++ compsOf (normEntry entry)))).length ≥
                  cfg.maxItems
            · rw [if_pos hm] at h
              rcases mem_addFile h with h' | ⟨hh1, _⟩
              · exact Or.inl h'
              · exact Or.inr ⟨entry, List.mem_cons_self entry rest, hh1.symm, h2⟩
            · rw [if_neg hm] at h
              rcases ih _ h with h' | ⟨e, he, hres⟩
              · rcases mem_addFile h' with h'' | ⟨hh1, _⟩
                · exact Or.inl h''
                · exact Or.inr ⟨entry, List.mem_cons_self entry rest, hh1.symm, h2⟩
              · exact Or.inr ⟨e, List.mem_cons_of_mem entry he, hres⟩
          · rw [if_neg h2] at h
            have h3 : ¬ (fs.isDir (normAbs (doc ++ compsOf (normEntry entry)))
                = true ∧ cfg.allowAncestor = true) := by
              rintro ⟨_, hca⟩
              rw [hA] at hca
              exact Bool.noConfusion hca
            rw [if_neg h3] at h
            rcases ih _ h with h' | ⟨e, he, hres⟩
            · exact Or.inl h'
            · exact Or.inr ⟨e, List.mem_cons_of_mem entry he, hres⟩

/-- Claim C2 — a Files-mode scan with `allow_ancestor_for_include` disabled
returns only paths corresponding to files listed in the stored includes
whitelist (a file on disk but not in includes is never returned), and with
`require_search_paths` set and empty includes the result is the empty list,
not the full tree. -/
theorem scan_files_whitelist (fs : FS) (doc home : List String)
    (bp : InputPath) (includes excludes : List String) (cfg : ScanCfg)
    (out : List (List String)) (hA : cfg.allowAncestor = false)
    (hok : scan_tree_files fs doc home bp includes excludes cfg = .ok out) :
    (∀ r ∈ out, ∃ root, resolveScanRoot doc home bp = some root ∧
      ∃ e ∈ includes, normAbs (doc ++ compsOf (normEntry e)) = root ++ r ∧
        fs.isFile (normAbs (doc ++ compsOf (normEntry e))) = true) ∧
    (cfg.requireSearchPaths = true → includes = [] → out = []) := by
  unfold scan_tree_files at hok
  cases hroot : resolveScanRoot doc home bp with
  | none => rw [hroot] at hok; exact absurd hok (by simp)
  | some root =>
      simp only [hroot] at hok
      by_cases hdir : fs.isDir root = false
      · rw [if_pos hdir] at hok
        have hout : out = [] := by
          have := hok
          simp at this
          exact this
        subst hout
        exact ⟨by simp, fun _ _ => rfl⟩
      · rw [if_neg hdir] at hok
        by_cases hreq : cfg.requireSearchPaths = true ∧ includes = []
        · rw [if_pos hreq] at hok
          have hout : out = [] := by
            have := hok
            simp at this
            exact this
          subst hout
          exact ⟨by simp, fun _ _ => rfl⟩
        · rw [if_neg hreq] at hok
          have hout : out = sortBy pathLe
              (scanFilesGo fs doc root includes
                (if cfg.ignoreExcludes then [] else excludes) cfg includes []).1 := by
            have := hok
            simp at this
            exact this.symm
          constructor
          · intro r hr
            rw [hout, mem_sortBy] at hr
            rcases scanFilesGo_whitelist hA includes [] hr with h' | ⟨e, he, hres⟩
            · exact absurd h' (List.not_mem_nil r)
            · exact ⟨root, rfl, e, he, hres⟩
          · intro hreqT hincE
            exact absurd ⟨hreqT, hincE⟩ hreq

/-- Witness for C2: disk has `a/b.py` and `a/c.py`, includes is
`["a/b.py"]`; the scan returns exactly `a/b.py` (never `a/c.py`), and with
empty includes it returns the empty list. -/
theorem scan_files_whitelist_witness :
    scan_tree_files ⟨[(["r", "a", "b.py"], "1"), (["r", "a", "c.py"], "2")],
        [["r"]]⟩ ["r"] [] ⟨false, []⟩ ["a/b.py"] []
        ⟨true, none, false, false, (fun _ => true), true, false, 0, [], [], []⟩ =
      .ok [["a", "b.py"]] ∧
    (∀ r ∈ [["a", "b.py"]], ∃ root,
      resolveScanRoot ["r"] [] ⟨false, []⟩ = some root ∧
      ∃ e ∈ ["a/b.py"], normAbs (["r"] ++ compsOf (normEntry e)) = root ++ r ∧
        FS.isFile ⟨[(["r", "a", "b.py"], "1"), (["r", "a", "c.py"], "2")],
          [["r"]]⟩ (normAbs (["r"] ++ compsOf (normEntry e))) = true) ∧
    scan_tree_files ⟨[(["r", "a", "b.py"], "1"), (["r", "a", "c.py"], "2")],
        [["r"]]⟩ ["r"] [] ⟨false, []⟩ [] []
        ⟨true, none, false, false, (fun _ => true), true, false, 0, [], [], []⟩ =
      .ok [] := by
  refine ⟨by rfl, ?_, by rfl⟩
  exact (scan_files_whitelist
    ⟨[(["r", "a", "b.py"], "1"), (["r", "a", "c.py"], "2")], [["r"]]⟩
    ["r"] [] ⟨false, []⟩ ["a/b.py"] []
    ⟨true, none, false, false, (fun _ => true), true, false, 0, [], [], []⟩
    [["a", "b.py"]] rfl (by rfl)).1

/-! ## C4: save_state invariants -/

/-- Counterexample to C4 as stated: the include entry `"./.git"` resolves to
the reserved `.git` directory but is not the *literal* string `".git"` (nor
does it start with `".git/"`), so `save_state` does not drop it: the saved
includes contain `".git/config"`, an entry lying under a reserved name. -/
theorem save_state_reserved_entry_not_dropped :
    (save_state ⟨[(["repo", ".git", "config"], "x")], [["repo"]]⟩ ["repo"]
        ["./.git"] []).includes = [".git/config"] ∧
    reservedLit REQUIRED_EXCLUDES_SAVE ".git/config" = true := by decide

theorem mem_iterFilesUnder {fs : FS} {base : List String} {rel : String}
    {r : String} (h : r ∈ iterFilesUnder fs base rel) :
    ∃ c, r = joinP c ∧ fs.isFile (base ++ c) = true := by
  unfold iterFilesUnder at h
  by_cases h0 : stripSlashes (replBack rel) = ""
  · rw [if_pos h0] at h
    exact absurd h (List.not_mem_nil r)
  · rw [if_neg h0] at h
    cases ht : relTo base
        (normAbs (base ++ compsOf (stripSlashes (replBack rel)))) with
    | none =>
        simp only [ht] at h
        exact absurd h (List.not_mem_nil r)
    | some relT =>
        simp only [ht] at h
        by_cases hf : fs.isFile
            (normAbs (base ++ compsOf (stripSlashes (replBack rel)))) = true
        · rw [if_pos hf] at h
          simp at h
          subst h
          exact ⟨relT, rfl, by rw [← (relTo_eq_some ht).2]; exact hf⟩
        · rw [if_neg hf] at h
          by_cases hd : fs.isDir
              (normAbs (base ++ compsOf (stripSlashes (replBack rel)))) = true
          · rw [if_pos hd] at h
            rw [List.mem_map] at h
            obtain ⟨f, hfm, hfr⟩ := h
            rw [List.mem_filter] at hfm
            obtain ⟨hff, hwalk⟩ := hfm
            have hpreT : normAbs (base ++ compsOf (stripSlashes (replBack rel)))
                <+: f.1 := by
              unfold walkHit at hwalk
              simp only [Bool.and_eq_true] at hwalk
              exact List.isPrefixOf_iff_prefix.mp hwalk.1.1
            have hpreB : base <+: f.1 :=
              (relTo_eq_some ht).1.trans hpreT
            obtain ⟨t, htl⟩ := hpreB
            refine ⟨f.1.drop base.length, hfr.symm, ?_⟩
            have : base ++ f.1.drop base.length = f.1 := by
              conv_rhs => rw [← htl]
              rw [← htl, List.drop_left]
            rw [this]
            exact isFile_of_mem hff
          · rw [if_neg hd] at h
            exact absurd h (List.not_mem_nil r)

theorem svcNorm_ne_of_trim {x : String} (h : svcNorm x ≠ "") : trimS x ≠ "" := by
  intro hc
  apply h
  show stripSlashes (replBack (trimS x)) = ""
  rw [hc]
  decide

/-- Claim C4 (amended) — every `save_state` result forces the reserved
excludes; its includes hold only existing files under SandboxRoot (so
entries resolving outside the root or not existing contribute nothing); and
every include entry whose *literal* normalized form is not a reserved name
(nor under one) is expanded into exactly the files `_iter_files_under`
yields below it — with the reserved/system names pruned strictly below the
entry.  (Entries reaching a reserved directory through `.`/`..` segments
are expanded like any other directory — the counterexample.) -/
theorem save_state_invariants (fs : FS) (base : List String)
    (includes excludes : List String) :
    (".git" ∈ (save_state fs base includes excludes).excludes ∧
      "vendor" ∈ (save_state fs base includes excludes).excludes ∧
      ".idea" ∈ (save_state fs base includes excludes).excludes) ∧
    (∀ r ∈ (save_state fs base includes excludes).includes,
      ∃ c, r = joinP c ∧ fs.isFile (base ++ c) = true) ∧
    (∀ item ∈ includes, svcNorm item ≠ "" →
      reservedLit REQUIRED_EXCLUDES_SAVE (svcNorm item) = false →
      ∀ r ∈ iterFilesUnder fs base (svcNorm item),
        r ∈ (save_state fs base includes excludes).includes) := by
  refine ⟨?_, ?_, ?_⟩
  · simp only [save_state, mem_sortBy, mem_dedupFirst]
    refine ⟨⟨?_, ?_⟩, ⟨?_, ?_⟩, ⟨?_, ?_⟩⟩ <;>
      simp [REQUIRED_EXCLUDES_SAVE]
  · intro r hr
    simp only [save_state, mem_sortBy, mem_dedupFirst] at hr
    obtain ⟨hr, -⟩ := hr
    rw [List.mem_flatten] at hr
    obtain ⟨l, hl, hrl⟩ := hr
    rw [List.mem_map] at hl
    obtain ⟨item, -, rfl⟩ := hl
    exact mem_iterFilesUnder hrl
  · intro item hitem hne hres r hr
    simp only [save_state, mem_sortBy, mem_dedupFirst]
    refine ⟨?_, List.not_mem_nil r⟩
    rw [List.mem_flatten]
    refine ⟨iterFilesUnder fs base (svcNorm item), ?_, hr⟩
    rw [List.mem_map]
    refine ⟨svcNorm item, ?_, rfl⟩
    rw [List.mem_filter]
    refine ⟨?_, by simp [hres]⟩
    rw [List.mem_filter]
    refine ⟨?_, by simp [hne]⟩
    rw [List.mem_map]
    refine ⟨item, ?_, rfl⟩
    rw [List.mem_filter]
    exact ⟨hitem, by simp [svcNorm_ne_of_trim hne]⟩

/-- Witness for C4 (amended): a directory include `"src"` expands into its
file `src/m.py`, and the reserved excludes are forced. -/
theorem save_state_invariants_witness :
    ("src" ∈ (["src"] : List String) ∧ svcNorm "src" ≠ "" ∧
      reservedLit REQUIRED_EXCLUDES_SAVE (svcNorm "src") = false ∧
      "src/m.py" ∈ iterFilesUnder
        ⟨[(["repo", "src", "m.py"], "x")], [["repo"]]⟩ ["repo"]
        (svcNorm "src")) ∧
    ".git" ∈ (save_state ⟨[(["repo", "src", "m.py"], "x")], [["repo"]]⟩
      ["repo"] ["src"] []).excludes ∧
    "src/m.py" ∈ (save_state ⟨[(["repo", "src", "m.py"], "x")], [["repo"]]⟩
      ["repo"] ["src"] []).includes := by
  have h := save_state_invariants ⟨[(["repo", "src", "m.py"], "x")], [["repo"]]⟩
    ["repo"] ["src"] []
  refine ⟨⟨by decide, by decide, by decide, by decide⟩, h.1.1, ?_⟩
  exact h.2.2 "src" (by decide) (by decide) (by decide) "src/m.py" (by decide)

/-! ## C5: grep budget lemmas -/

def sumCounts (l : List (List String × Nat)) : Nat :=
  (l.map (fun e => e.2)).sum

/-- Total regex matches in the file backing one candidate. -/
def fileHits (fs : FS) (root : List String) (hitCount : String → Nat)
    (rel : List String) : Nat :=
  ((splitKeep ((fs.content (normAbs (root ++ rel))).getD "")).map hitCount).sum

/-- Total regex matches in the whole candidate corpus. -/
def corpusHits (fs : FS) (root : List String) (hitCount : String → Nat)
    (cands : List (List String)) : Nat :=
  (cands.map (fileHits fs root hitCount)).sum

theorem procMatches_total {k : Nat} (hk : 1 ≤ k) :
    ∀ (c fc t : Nat), t < k →
      procMatches k 0 c fc t =
        if t + c < k then ⟨fc + c, t + c, false, false⟩
        else ⟨fc + (k - t), k, true, true⟩ := by
  intro c
  induction c with
  | zero =>
      intro fc t ht
      simp only [procMatches]
      rw [if_pos (show t + 0 < k by omega)]
      simp
  | succ c ih =>
      intro fc t ht
      unfold procMatches
      by_cases hstop : k ≠ 0 ∧ t + 1 ≥ k
      · rw [if_pos hstop]
        have h1 : ¬ t + (c + 1) < k := by omega
        have h2 : t + 1 = k := by omega
        have h3 : k - t = 1 := by omega
        rw [if_neg h1]
        simp [h2, h3]
      · rw [if_neg hstop]
        have hlt : t + 1 < k := by omega
        have : ¬ ((0 : Nat) ≠ 0 ∧ fc + 1 ≥ 0) := by omega
        rw [if_neg this]
        rw [ih (fc + 1) (t + 1) hlt]
        by_cases hc : t + (c + 1) < k
        · have : t + 1 + c < k := by omega
          rw [if_pos this, if_pos hc]
          congr 1 <;> first | rfl | omega
        · have : ¬ t + 1 + c < k := by omega
          rw [if_neg this, if_neg hc]
          congr 1 <;> first | rfl | omega

theorem procLines_total {k : Nat} (hk : 1 ≤ k) (hitCount : String → Nat) :
    ∀ (lines : List String) (fc t : Nat), t < k →
      procLines k 0 hitCount lines fc t =
        if t + (lines.map hitCount).sum < k then
          ⟨fc + (lines.map hitCount).sum, t + (lines.map hitCount).sum,
            false, false⟩
        else ⟨fc + (k - t), k, true, true⟩ := by
  intro lines
  induction lines with
  | nil =>
      intro fc t ht
      simp only [procLines, List.map_nil, List.sum_nil]
      rw [if_pos (show t + 0 < k by omega)]
      simp
  | cons l ls ih =>
      intro fc t ht
      have hsum : ((l :: ls).map hitCount).sum =
          hitCount l + (ls.map hitCount).sum := by simp
      unfold procLines
      rw [procMatches_total hk (hitCount l) fc t ht]
      by_cases hA : t + hitCount l < k
      · rw [if_pos hA]
        simp only [Bool.false_eq_true, if_false]
        rw [ih (fc + hitCount l) (t + hitCount l) hA]
        by_cases hB : t + hitCount l + (ls.map hitCount).sum < k
        · have hB' : t + ((l :: ls).map hitCount).sum < k := by omega
          rw [if_pos hB, if_pos hB']
          congr 1 <;> first | rfl | omega
        · have hB' : ¬ t + ((l :: ls).map hitCount).sum < k := by omega
          rw [if_neg hB, if_neg hB']
          congr 1 <;> first | rfl | omega
      · rw [if_neg hA]
        simp only [if_true]
        have hB' : ¬ t + ((l :: ls).map hitCount).sum < k := by omega
        rw [if_neg hB']

theorem sumCounts_append (l : List (List String × Nat)) (e : List String × Nat) :
    sumCounts (l ++ [e]) = sumCounts l + e.2 := by
  simp [sumCounts]

theorem grepGo_budget {fs : FS} {root : List String} {hitCount : String → Nat}
    {tmo : Nat → Bool} {k : Nat} (hk : 1 ≤ k) {cfg : GrepCfg}
    (hmt : cfg.maxTotal = k) (hpf : cfg.maxPerFile = 0)
    (hto : cfg.timeoutEnabled = false) :
    ∀ (cands : List (List String)) (i : Nat) (acc : GrepAcc),
      (∀ rel ∈ cands, ∃ c, fs.content (normAbs (root ++ rel)) = some c ∧
        (cfg.sizeLimit = 0 ∨ c.length ≤ cfg.sizeLimit)) →
      acc.scannedFiles + cands.length ≤ cfg.maxFiles →
      acc.totalMatches < k →
      acc.globalTrunc = false →
      sumCounts acc.files = acc.totalMatches →
      (if acc.totalMatches + corpusHits fs root hitCount cands < k then
        (grepGo fs root cfg hitCount tmo cands i acc).totalMatches =
            acc.totalMatches + corpusHits fs root hitCount cands ∧
          (grepGo fs root cfg hitCount tmo cands i acc).globalTrunc = false ∧
          sumCounts (grepGo fs root cfg hitCount tmo cands i acc).files =
            (grepGo fs root cfg hitCount tmo cands i acc).totalMatches
      else
        (grepGo fs root cfg hitCount tmo cands i acc).totalMatches = k ∧
          (grepGo fs root cfg hitCount tmo cands i acc).globalTrunc = true ∧
          sumCounts (grepGo fs root cfg hitCount tmo cands i acc).files = k) := by
  intro cands
  induction cands with
  | nil =>
      intro i acc hread hbud ht hgt hsum
      have hcond : acc.totalMatches + corpusHits fs root hitCount [] < k := by
        simp [corpusHits]
        omega
      rw [if_pos hcond]
      simp only [grepGo, corpusHits, List.map_nil, List.sum_nil]
      exact ⟨by omega, hgt, by rw [hsum]⟩
  | cons rel rest ih =>
      intro i acc hread hbud ht hgt hsum
      obtain ⟨c, hc, hsize⟩ := hread rel (List.mem_cons_self rel rest)
      have hF : fileHits fs root hitCount rel =
          ((splitKeep c).map hitCount).sum := by
        simp [fileHits, hc]
      have hcorp : corpusHits fs root hitCount (rel :: rest) =
          ((splitKeep c).map hitCount).sum + corpusHits fs root hitCount rest := by
        simp [corpusHits, hF]
      have hnt : ¬ (cfg.timeoutEnabled = true ∧ tmo i = true) := by
        rw [hto]
        rintro ⟨h, -⟩
        exact Bool.noConfusion h
      have hns : ¬ (cfg.sizeLimit ≠ 0 ∧ c.length > cfg.sizeLimit) := by
        rcases hsize with h | h
        · rintro ⟨hh, -⟩; exact hh h
        · rintro ⟨-, hh⟩; omega
      have hnf : ¬ (acc.scannedFiles + 1 > cfg.maxFiles) := by
        simp only [List.length_cons] at hbud
        omega
      unfold grepGo
      rw [if_neg hnt]
      simp only [hc]
      rw [if_neg hns, if_neg hnf, hmt, hpf,
        procLines_total hk hitCount (splitKeep c) 0 acc.totalMatches ht]
      by_cases hA : acc.totalMatches + ((splitKeep c).map hitCount).sum < k
      · rw [if_pos hA]
        simp only [Bool.false_eq_true, if_false, Nat.zero_add]
        have hih := ih (i + 1)
          ⟨acc.scannedFiles + 1,
            acc.matchedFiles +
              (if ((splitKeep c).map hitCount).sum > 0 then 1 else 0),
            acc.totalMatches + ((splitKeep c).map hitCount).sum,
            false,
            if ((splitKeep c).map hitCount).sum > 0 then
              acc.files ++ [(rel, ((splitKeep c).map hitCount).sum)]
            else acc.files⟩
          (fun r hr => hread r (List.mem_cons_of_mem rel hr))
          (by simp only [List.length_cons] at hbud; simpa using by omega)
          hA rfl
          (by
            by_cases hF0 : ((splitKeep c).map hitCount).sum > 0
            · simp only [hF0, if_true, sumCounts_append, hsum]
            · simp only [hF0, if_false]
              have : ((splitKeep c).map hitCount).sum = 0 := by omega
              simp [hsum, this])
        by_cases hout : acc.totalMatches +
            corpusHits fs root hitCount (rel :: rest) < k
        · rw [if_pos hout]
          have hin : acc.totalMatches + ((splitKeep c).map hitCount).sum +
              corpusHits fs root hitCount rest < k := by
            rw [hcorp] at hout
            omega
          rw [if_pos hin] at hih
          dsimp only at hih
          refine ⟨?_, hih.2.1, hih.2.2⟩
          rw [hih.1, hcorp]
          omega
        · rw [if_neg hout]
          have hin : ¬ (acc.totalMatches + ((splitKeep c).map hitCount).sum +
              corpusHits fs root hitCount rest < k) := by
            rw [hcorp] at hout
            omega
          rw [if_neg hin] at hih
          exact hih
      · rw [if_neg hA]
        simp only [if_true, Nat.zero_add]
        have hout : ¬ (acc.totalMatches +
            corpusHits fs root hitCount (rel :: rest) < k) := by
          rw [hcorp]
          omega
        rw [if_neg hout]
        have hpos : k - acc.totalMatches > 0 := by omega
        simp only [hpos, if_true]
        refine ⟨?_, ?_, ?_⟩
        · dsimp only
        · dsimp only
        · dsimp only
          simp only [sumCounts_append, hsum]
          omega

/-- Claim C5 — `search_grep` budgets: once validation passes, the result
document always has `ok = true` (any budget or timeout exhaustion returns
the partial result, never a failure); and when the candidate corpus holds at
least `max_total_matches = k ≥ 1` regex matches (per-file budget disabled,
timeout off, all candidates readable and within the size and file budgets),
the document reports exactly `k` matches in total — both in
`stats.total_matches` and as the sum of the per-file match counts — with
`stats.truncated = true`. -/
theorem search_grep_budget_truncation (fs : FS) (doc home : List String)
    (bp : InputPath) (hitCount : String → Nat) (tmo : Nat → Bool)
    (cfg : GrepCfg) (includes excludes : List String) (scanCfg : ScanCfg)
    (cands : List (List String)) (k : Nat) (rel0 : List String)
    (hrel : relTo doc (pyResolve doc home bp) = some rel0)
    (hdir : fs.isDir (pyResolve doc home bp) = true)
    (hscan : scan_tree_files fs doc home ⟨true, pyResolve doc home bp⟩
      includes excludes scanCfg = .ok cands) :
    (search_grep fs doc home bp true hitCount tmo cfg includes excludes
        scanCfg).ok = true ∧
    (cfg.maxTotal = k → cfg.maxPerFile = 0 → cfg.timeoutEnabled = false →
      1 ≤ k →
      (∀ rel ∈ cands, ∃ c,
        fs.content (normAbs (pyResolve doc home bp ++ rel)) = some c ∧
        (cfg.sizeLimit = 0 ∨ c.length ≤ cfg.sizeLimit)) →
      cands.length ≤ cfg.maxFiles →
      k ≤ corpusHits fs (pyResolve doc home bp) hitCount cands →
      (search_grep fs doc home bp true hitCount tmo cfg includes excludes
          scanCfg).totalMatches = k ∧
      (search_grep fs doc home bp true hitCount tmo cfg includes excludes
          scanCfg).truncated = true ∧
      sumCounts (search_grep fs doc home bp true hitCount tmo cfg includes
          excludes scanCfg).files = k) := by
  have hndir : ¬ (fs.isDir (pyResolve doc home bp) = false) := by
    rw [hdir]
    exact fun h => Bool.noConfusion h
  have hred : search_grep fs doc home bp true hitCount tmo cfg includes
      excludes scanCfg =
      ⟨true,
        (grepGo fs (pyResolve doc home bp) cfg hitCount tmo cands 0
          ⟨0, 0, 0, false, []⟩).files,
        (grepGo fs (pyResolve doc home bp) cfg hitCount tmo cands 0
          ⟨0, 0, 0, false, []⟩).totalMatches,
        (grepGo fs (pyResolve doc home bp) cfg hitCount tmo cands 0
          ⟨0, 0, 0, false, []⟩).globalTrunc,
        (grepGo fs (pyResolve doc home bp) cfg hitCount tmo cands 0
          ⟨0, 0, 0, false, []⟩).scannedFiles,
        (grepGo fs (pyResolve doc home bp) cfg hitCount tmo cands 0
          ⟨0, 0, 0, false, []⟩).matchedFiles,
        []⟩ := by
    simp only [search_grep, hrel, hscan]
    rw [if_neg hndir, if_neg (by simp : ¬ (true = false))]
  refine ⟨by rw [hred], ?_⟩
  intro hmt hpf hto hk hread hlen hkM
  have hb := @grepGo_budget fs (pyResolve doc home bp) hitCount tmo k hk cfg
    hmt hpf hto cands 0 ⟨0, 0, 0, false, []⟩
    hread (by show 0 + cands.length ≤ cfg.maxFiles; omega)
    (by show (0 : Nat) < k; omega) rfl rfl
  have hcond : ¬ ((⟨0, 0, 0, false, []⟩ : GrepAcc).totalMatches +
      corpusHits fs (pyResolve doc home bp) hitCount cands < k) := by
    show ¬ (0 + corpusHits fs (pyResolve doc home bp) hitCount cands < k)
    omega
  rw [if_neg hcond] at hb
  rw [hred]
  exact hb

/-- Witness for C5: two files with five total matches and
`max_total_matches = 3` report exactly 3 matches and `truncated = true`. -/
theorem search_grep_budget_truncation_witness :
    relTo ["r"] (pyResolve ["r"] [] ⟨true, ["r"]⟩) = some [] ∧
    FS.isDir ⟨[(["r", "a"], "xx\nx\n"), (["r", "b"], "xx\n")], [["r"]]⟩
      (pyResolve ["r"] [] ⟨true, ["r"]⟩) = true ∧
    scan_tree_files ⟨[(["r", "a"], "xx\nx\n"), (["r", "b"], "xx\n")], [["r"]]⟩
      ["r"] [] ⟨true, pyResolve ["r"] [] ⟨true, ["r"]⟩⟩ ["a", "b"] []
      ⟨true, none, false, false, (fun _ => true), true, true, 0, [], [], []⟩ =
      .ok [["a"], ["b"]] ∧
    corpusHits ⟨[(["r", "a"], "xx\nx\n"), (["r", "b"], "xx\n")], [["r"]]⟩
      ["r"] (fun l => (l.data.filter (fun ch => ch = 'x')).length)
      [["a"], ["b"]] = 5 ∧
    (search_grep ⟨[(["r", "a"], "xx\nx\n"), (["r", "b"], "xx\n")], [["r"]]⟩
        ["r"] [] ⟨true, ["r"]⟩ true
        (fun l => (l.data.filter (fun ch => ch = 'x')).length)
        (fun _ => false) ⟨100, 0, 3, 0, false⟩ ["a", "b"] []
        ⟨true, none, false, false, (fun _ => true), true, true, 0, [], [], []⟩
        ).totalMatches = 3 ∧
    (search_grep ⟨[(["r", "a"], "xx\nx\n"), (["r", "b"], "xx\n")], [["r"]]⟩
        ["r"] [] ⟨true, ["r"]⟩ true
        (fun l => (l.data.filter (fun ch => ch = 'x')).length)
        (fun _ => false) ⟨100, 0, 3, 0, false⟩ ["a", "b"] []
        ⟨true, none, false, false, (fun _ => true), true, true, 0, [], [], []⟩
        ).truncated = true ∧
    (search_grep ⟨[(["r", "a"], "xx\nx\n"), (["r", "b"], "xx\n")], [["r"]]⟩
        ["r"] [] ⟨true, ["r"]⟩ true
        (fun l => (l.data.filter (fun ch => ch = 'x')).length)
        (fun _ => false) ⟨100, 0, 3, 0, false⟩ ["a", "b"] []
        ⟨true, none, false, false, (fun _ => true), true, true, 0, [], [], []⟩
        ).ok = true := by
  have h := search_grep_budget_truncation
    ⟨[(["r", "a"], "xx\nx\n"), (["r", "b"], "xx\n")], [["r"]]⟩ ["r"] []
    ⟨true, ["r"]⟩ (fun l => (l.data.filter (fun ch => ch = 'x')).length)
    (fun _ => false) ⟨100, 0, 3, 0, false⟩ ["a", "b"] []
    ⟨true, none, false, false, (fun _ => true), true, true, 0, [], [], []⟩
    [["a"], ["b"]] 3 [] (by rfl) (by rfl) (by rfl)
  have h2 := h.2 rfl rfl rfl (by omega)
    (by
      intro rel hrel
      rcases List.mem_cons.mp hrel with rfl | hrel2
      · exact ⟨"xx\nx\n", by rfl, Or.inl rfl⟩
      · rcases List.mem_cons.mp hrel2 with rfl | hrel3
        · exact ⟨"xx\n", by rfl, Or.inl rfl⟩
        · exact absurd hrel3 (List.not_mem_nil rel))
    (by simp) (by decide)
  exact ⟨by rfl, by rfl, by rfl, by rfl, h2.1, h2.2.1, h.1⟩

/-! ## C1: sandbox confinement -/

theorem resolveScanRoot_under {doc home : List String} {bp : InputPath}
    {root : List String} (h : resolveScanRoot doc home bp = some root) :
    doc <+: root := by
  unfold resolveScanRoot at h
  cases hr : relTo doc (scanRootRaw doc home bp) with
  | none => rw [hr] at h; exact absurd h (by simp)
  | some r =>
      rw [hr] at h
      injection h with h'
      subst h'
      exact (relTo_eq_some hr).1

theorem grepGo_files_sub {fs : FS} {root : List String} {cfg : GrepCfg}
    {hitCount : String → Nat} {tmo : Nat → Bool} :
    ∀ (cands : List (List String)) (i : Nat) (acc : GrepAcc)
      {f : List String × Nat},
      f ∈ (grepGo fs root cfg hitCount tmo cands i acc).files →
      f ∈ acc.files ∨ f.1 ∈ cands := by
  intro cands
  induction cands with
  | nil => intro i acc f h; exact Or.inl h
  | cons rel rest ih =>
      intro i acc f h
      have hfin : ∀ (cnt : Nat) (g : List String × Nat),
          g ∈ (if cnt > 0 then acc.files ++ [(rel, cnt)] else acc.files) →
          g ∈ acc.files ∨ g.1 ∈ rel :: rest := by
        intro cnt g hg
        by_cases hpos : cnt > 0
        · rw [if_pos hpos] at hg
          rcases List.mem_append.mp hg with hga | hgb
          · exact Or.inl hga
          · simp at hgb
            subst hgb
            exact Or.inr (List.mem_cons_self rel rest)
        · rw [if_neg hpos] at hg
          exact Or.inl hg
      unfold grepGo at h
      by_cases ht : cfg.timeoutEnabled = true ∧ tmo i = true
      · rw [if_pos ht] at h
        exact Or.inl h
      · rw [if_neg ht] at h
        cases hc : fs.content (normAbs (root ++ rel)) with
        | none =>
            rw [hc] at h
            try dsimp only at h
            rcases ih _ _ h with h' | h'
            · exact Or.inl h'
            · exact Or.inr (List.mem_cons_of_mem rel h')
        | some c =>
            rw [hc] at h
            try dsimp only at h
            by_cases hs : cfg.sizeLimit ≠ 0 ∧ c.length > cfg.sizeLimit
            · rw [if_pos hs] at h
              rcases ih _ _ h with h' | h'
              · exact Or.inl h'
              · exact Or.inr (List.mem_cons_of_mem rel h')
            · rw [if_neg hs] at h
              by_cases hm : acc.scannedFiles + 1 > cfg.maxFiles
              · rw [if_pos hm] at h
                exact Or.inl h
              · rw [if_neg hm] at h
                by_cases hg : (procLines cfg.maxTotal cfg.maxPerFile hitCount
                    (splitKeep c) 0 acc.totalMatches).gt = true
                · rw [if_pos hg] at h
                  exact hfin _ f h
                · rw [if_neg hg] at h
                  rcases ih _ _ h with h' | h'
                  · exact hfin _ f h'
                  · exact Or.inr (List.mem_cons_of_mem rel h')

/-- Claim C1 — sandbox confinement: every path-taking operation (read_file,
write_file, make_dirs, file_stat, read_file_range, insert_code, delete_code,
the scanner behind find_files/list_files/list_dirs, and search_grep) either
refuses the call (error field, `False` return, or exception) or the fully
resolved path it reads or writes is `doc_path` or a descendant of it;
refused calls leave the filesystem untouched, and the scanner and grep
return only files under the validated request root. -/
theorem sandbox_confinement (fs : FS) (base home : List String)
    (inp : InputPath) (content uid cp wh : String) (codeLines : List String)
    (iaddr : InsertAddr) (daddr : DeleteAddr) (markOnly : Bool)
    (startL endL : Int) (doc : List String) (bp : InputPath)
    (includes excludes : List String) (cfg : ScanCfg)
    (hitCount : String → Nat) (tmo : Nat → Bool) (gcfg : GrepCfg)
    (regexOk : Bool) :
    (∀ p, resolveUnder base home inp = some p → base <+: p) ∧
    (resolveUnder base home inp = none →
      read_file fs base home inp = .error "path_must_be_under_doc_path") ∧
    (∀ c, read_file fs base home inp = .ok c →
      ∃ p, resolveUnder base home inp = some p ∧ base <+: p ∧
        fs.content p = some c) ∧
    (resolveUnder base home inp = none →
      write_file fs base home inp content = (false, fs)) ∧
    ((write_file fs base home inp content).1 = true →
      ∃ p, resolveUnder base home inp = some p ∧ base <+: p ∧
        (write_file fs base home inp content).2 = fs.writeFile p content) ∧
    (resolveUnder base home inp = none →
      make_dirs fs base home inp = (false, fs)) ∧
    ((make_dirs fs base home inp).1 = true →
      ∃ p, resolveUnder base home inp = some p ∧ base <+: p ∧
        (make_dirs fs base home inp).2 = fs.mkDirs p) ∧
    (resolveUnder base home inp = none →
      (file_stat fs base home inp).error = some "path_must_be_under_doc_path" ∧
      (file_stat fs base home inp).fexists = false) ∧
    (∀ p, (file_stat fs base home inp).fexists = true →
      (file_stat fs base home inp).rpath = some p → base <+: p) ∧
    (resolveUnder base home inp = none →
      (read_file_range fs base home inp startL endL).fexists = false ∧
      (read_file_range fs base home inp startL endL).error =
        some "path_must_be_under_doc_path") ∧
    (∀ p, (read_file_range fs base home inp startL endL).fexists = true →
      (read_file_range fs base home inp startL endL).rpath = some p →
      base <+: p) ∧
    (resolveUnder base home inp = none →
      insert_code fs base home inp codeLines iaddr wh =
        (.error "path_must_be_under_doc_path", fs)) ∧
    ((insert_code fs base home inp codeLines iaddr wh).2 = fs ∨
      ∃ p s, resolveUnder base home inp = some p ∧ base <+: p ∧
        (insert_code fs base home inp codeLines iaddr wh).2 =
          fs.writeFile p s) ∧
    ((delete_code fs base home inp daddr markOnly uid cp).2 = fs ∨
      ∃ p s, resolveUnder base home inp = some p ∧ base <+: p ∧
        (delete_code fs base home inp daddr markOnly uid cp).2 =
          fs.writeFile p s) ∧
    (resolveScanRoot doc home bp = none →
      scan_tree_files fs doc home bp includes excludes cfg =
        .error "base_path_must_be_under_doc_path" ∧
      scan_tree_dirs fs doc home bp includes excludes cfg =
        .error "base_path_must_be_under_doc_path") ∧
    (∀ root, resolveScanRoot doc home bp = some root → doc <+: root) ∧
    (∀ root out, resolveScanRoot doc home bp = some root →
      scan_tree_files fs doc home bp includes excludes cfg = .ok out →
      ∀ r ∈ out, fs.isFile (root ++ r) = true ∧ doc <+: root ++ r) ∧
    (relTo doc (pyResolve doc home bp) = none →
      (search_grep fs doc home bp regexOk hitCount tmo gcfg includes excludes
        cfg).ok = false ∧
      (search_grep fs doc home bp regexOk hitCount tmo gcfg includes excludes
        cfg).files = []) ∧
    (∀ cands, scan_tree_files fs doc home ⟨true, pyResolve doc home bp⟩
        includes excludes cfg = .ok cands →
      ∀ f ∈ (search_grep fs doc home bp regexOk hitCount tmo gcfg includes
        excludes cfg).files, f.1 ∈ cands) := by
  refine ⟨?_, ?_, ?_, ?_, ?_, ?_, ?_, ?_, ?_, ?_, ?_, ?_, ?_, ?_, ?_, ?_, ?_,
    ?_, ?_⟩
  · intro p hp
    exact (resolveUnder_under hp).1
  · intro hn
    simp [read_file, hn]
  · intro c hc
    cases hres : resolveUnder base home inp with
    | none => simp [read_file, hres] at hc
    | some p =>
        simp only [read_file, hres] at hc
        cases hcon : fs.content p with
        | none => rw [hcon] at hc; exact absurd hc (by simp)
        | some c' =>
            rw [hcon] at hc
            injection hc with hc'
            exact ⟨p, rfl, (resolveUnder_under hres).1, hc' ▸ hcon⟩
  · intro hn
    simp [write_file, hn]
  · intro ht
    cases hres : resolveUnder base home inp with
    | none => simp [write_file, hres] at ht
    | some p =>
        exact ⟨p, rfl, (resolveUnder_under hres).1, by simp [write_file, hres]⟩
  · intro hn
    simp [make_dirs, hn]
  · intro ht
    cases hres : resolveUnder base home inp with
    | none => simp [make_dirs, hres] at ht
    | some p =>
        exact ⟨p, rfl, (resolveUnder_under hres).1, by simp [make_dirs, hres]⟩
  · intro hn
    simp [file_stat, hn]
  · intro p hex hpath
    cases hres : resolveUnder base home inp with
    | none => simp [file_stat, hres] at hex
    | some q =>
        simp only [file_stat, hres] at hex hpath
        cases hcon : fs.content q with
        | none => rw [hcon] at hex; exact absurd hex (by simp)
        | some c' =>
            rw [hcon] at hpath
            simp at hpath
            exact hpath ▸ (resolveUnder_under hres).1
  · intro hn
    simp [read_file_range, hn]
  · intro p hex hpath
    cases hres : resolveUnder base home inp with
    | none => simp [read_file_range, hres] at hex
    | some q =>
        simp only [read_file_range, hres] at hex hpath
        cases hcon : fs.content q with
        | none => rw [hcon] at hex; exact absurd hex (by simp)
        | some c' =>
            rw [hcon] at hpath
            simp at hpath
            exact hpath ▸ (resolveUnder_under hres).1
  · intro hn
    simp [insert_code, hn]
  · cases hres : resolveUnder base home inp with
    | none => exact Or.inl (by simp [insert_code, hres])
    | some p =>
        cases hcon : fs.content p with
        | none => exact Or.inl (by simp [insert_code, hres, hcon])
        | some c' =>
            cases hins : insert_code_lines (splitKeep c') codeLines iaddr wh with
            | mk res nl =>
                cases res with
                | error e =>
                    exact Or.inl (by simp [insert_code, hres, hcon, hins])
                | ok r =>
                    exact Or.inr ⟨p, String.join nl, rfl,
                      (resolveUnder_under hres).1,
                      by simp [insert_code, hres, hcon, hins]⟩
  · cases hres : resolveUnder base home inp with
    | none => exact Or.inl (by simp [delete_code, hres])
    | some p =>
        cases hcon : fs.content p with
        | none => exact Or.inl (by simp [delete_code, hres, hcon])
        | some c' =>
            by_cases herr : (delete_code_lines (splitKeep c') daddr markOnly
                uid cp).1.error.isSome = true
            · exact Or.inl (by simp [delete_code, hres, hcon, herr])
            · exact Or.inr ⟨p,
                String.join (delete_code_lines (splitKeep c') daddr markOnly
                  uid cp).2, rfl, (resolveUnder_under hres).1,
                by simp [delete_code, hres, hcon, herr]⟩
  · intro hn
    constructor
    · simp [scan_tree_files, hn]
    · simp [scan_tree_dirs, hn]
  · intro root hroot
    exact resolveScanRoot_under hroot
  · intro root out hroot hok r hr
    unfold scan_tree_files at hok
    simp only [hroot] at hok
    by_cases hdir : fs.isDir root = false
    · rw [if_pos hdir] at hok
      simp at hok
      subst hok
      exact absurd hr (List.not_mem_nil r)
    · rw [if_neg hdir] at hok
      by_cases hreq : cfg.requireSearchPaths = true ∧ includes = []
      · rw [if_pos hreq] at hok
        simp at hok
        subst hok
        exact absurd hr (List.not_mem_nil r)
      · rw [if_neg hreq] at hok
        have hout : out = sortBy pathLe
            (scanFilesGo fs doc root includes
              (if cfg.ignoreExcludes then [] else excludes) cfg includes []).1 := by
          have := hok
          simp at this
          exact this.symm
        rw [hout, mem_sortBy] at hr
        rcases scanFilesGo_mem includes [] hr with h' | ⟨hpre, hfile⟩
        · exact absurd h' (List.not_mem_nil r)
        · exact ⟨hfile, hpre⟩
  · intro hn
    constructor <;> simp [search_grep, hn]
  · intro cands hscan f hf
    unfold search_grep at hf
    cases hrel : relTo doc (pyResolve doc home bp) with
    | none => simp only [hrel] at hf; exact absurd hf (List.not_mem_nil f)
    | some rel0 =>
        simp only [hrel] at hf
        by_cases hdir : fs.isDir (pyResolve doc home bp) = false
        · rw [if_pos hdir] at hf
          exact absurd hf (List.not_mem_nil f)
        · rw [if_neg hdir] at hf
          by_cases hre : regexOk = false
          · rw [if_pos hre] at hf
            exact absurd hf (List.not_mem_nil f)
          · rw [if_neg hre] at hf
            simp only [hscan] at hf
            rcases grepGo_files_sub cands 0 ⟨0, 0, 0, false, []⟩ hf with h' | h'
            · exact absurd h' (List.not_mem_nil f)
            · exact h'

/-- Witness for C1: with SandboxRoot `r` holding the file `r/a.txt`, the
traversal input `../etc/passwd` is refused by read_file, while `a.txt`
resolves to a path under the root and its content is read. -/
theorem sandbox_confinement_witness :
    read_file ⟨[(["r", "a.txt"], "hi")], [["r"]]⟩ ["r"] []
        ⟨false, ["..", "etc", "passwd"]⟩ =
      .error "path_must_be_under_doc_path" ∧
    (∃ p, resolveUnder ["r"] [] ⟨false, ["a.txt"]⟩ = some p ∧ ["r"] <+: p ∧
      FS.content ⟨[(["r", "a.txt"], "hi")], [["r"]]⟩ p = some "hi") := by
  constructor
  · exact (sandbox_confinement ⟨[(["r", "a.txt"], "hi")], [["r"]]⟩ ["r"] []
      ⟨false, ["..", "etc", "passwd"]⟩ "" "" "" "" [] (.byLine 1)
      (.byRange 1 none) false 0 0 ["r"] ⟨false, []⟩ [] []
      ⟨false, none, false, false, (fun _ => true), false, false, 0, [], [], []⟩
      (fun _ => 0) (fun _ => false) ⟨0, 0, 0, 0, false⟩ false).2.1 (by rfl)
  · exact (sandbox_confinement ⟨[(["r", "a.txt"], "hi")], [["r"]]⟩ ["r"] []
      ⟨false, ["a.txt"]⟩ "" "" "" "" [] (.byLine 1)
      (.byRange 1 none) false 0 0 ["r"] ⟨false, []⟩ [] []
      ⟨false, none, false, false, (fun _ => true), false, false, 0, [], [], []⟩
      (fun _ => 0) (fun _ => false) ⟨0, 0, 0, 0, false⟩ false).2.2.1 "hi"
      (by rfl)

end Replica


